import Mathlib

/-!
# dbr-go (package `ropdb`): connection registry and tenant accounts

A shallow embedding of `common.go`, `account.go`, `rows.go` and
`dbr_instance.go`, followed by theorems about account reconciliation
(`Common.ReadAccounts`), the connection cache (`Common.OpenInstance`,
`Common.Close`), the lazily opened account handle (`Account.DB`), placeholder
substitution (`Account.QueryPrep`) and the row iterator (`Rows.Scan`).

Modelling conventions.

* A Go `string` is its byte sequence, `List Nat`.  The literals of the source
  are ASCII and are written `bytes "..."`.
* Go `int` is 64 bits wide.  Integers are `Int`; the one place where the width
  matters is `strconv.Atoi`, which rejects values outside the `int64` range.
* Pointers to heap objects are modelled by value.  An `*Account` lives in the
  roster map; a mutation through the pointer returned by `Account(id)` is a
  write of the updated value under that id.  A `*sql.DB` is an opaque `Handle`.
* The mutexes serialise the operations; every operation is modelled as one
  atomic state transformer.
* The database is outside the program: the outcome of `sql.Open`, of
  `db.Close` and of the two queries are inputs of the operations.  So is the
  order in which `range` visits the connection cache in `Close`, which Go
  leaves unspecified.
* A call either returns (`Exec.done`), panics (`Exec.panic`) or, for the model
  of a loop, exhausts the loop bound (`Exec.fuel`).
-/

namespace Ropdb

/-! ## Strings, errors, outcomes -/

/-- A Go string: a sequence of bytes. -/
abbrev GoString := List Nat

/-- The byte sequence of an ASCII literal. -/
def bytes (s : String) : GoString := s.data.map Char.toNat

/-- An `error` value, identified by its message. -/
abbrev Error := GoString

/-- A `*sql.DB`: the identity of one opened database handle. -/
abbrev Handle := Nat

/-- Outcome of a call. -/
inductive Exec (α : Type) where
  | done (a : α)
  | panic
  | fuel
  deriving DecidableEq, Repr

/-! ## Standard-library functions used by the source -/

/-- Value of a run of ASCII decimal digits, most significant first, continuing
from the accumulator; `none` when a byte is not a digit. -/
def digitsValue : List Nat → Nat → Option Nat
  | [], n => some n
  | c :: cs, n => if 48 ≤ c ∧ c ≤ 57 then digitsValue cs (n * 10 + (c - 48)) else none

/-- Range check of `strconv.ParseInt(s, 10, 0)` for a non-negative value. -/
def intOfNat (n : Nat) : Option Int := if n < 2 ^ 63 then some (n : Int) else none

/-- Range check of `strconv.ParseInt(s, 10, 0)` for a value written with `-`. -/
def intOfNeg (n : Nat) : Option Int := if n ≤ 2 ^ 63 then some (-(n : Int)) else none

/-- Go `strconv.Atoi`: an optional sign `+` (43) or `-` (45) followed by at
least one decimal digit and nothing else, the value within the range of a
64-bit `int`.  `none` stands for a non-nil error. -/
def Atoi (s : GoString) : Option Int :=
  match s with
  | [] => none
  | c :: cs =>
    if c = 45 then
      match cs with
      | [] => none
      | _ :: _ => (digitsValue cs 0).bind intOfNeg
    else if c = 43 then
      match cs with
      | [] => none
      | _ :: _ => (digitsValue cs 0).bind intOfNat
    else (digitsValue (c :: cs) 0).bind intOfNat

/-- Go `strings.HasPrefix`. -/
def HasPrefix (s pre : GoString) : Bool := pre.isPrefixOf s

/-- Go `strings.Replace(s, old, new, -1)` for a non-empty `old` (both call
sites pass a non-empty literal): scanning from the left, every occurrence of
`old` that does not overlap an earlier replaced occurrence is replaced by `new`.
The counter is the number of bytes of the current occurrence still to skip. -/
def replaceFrom (old new : GoString) : Nat → GoString → GoString
  | _, [] => []
  | skip + 1, _ :: s => replaceFrom old new skip s
  | 0, c :: s =>
    if old.isPrefixOf (c :: s) then new ++ replaceFrom old new (old.length - 1) s
    else c :: replaceFrom old new 0 s

/-- Go `strings.Replace(s, old, new, -1)`, see `replaceFrom`. -/
def Replace (s old new : GoString) : GoString := replaceFrom old new 0 s

/-! ## Go maps -/

/-- Lookup `m[k]` in an association list. -/
def mapGet {κ β : Type} [DecidableEq κ] : List (κ × β) → κ → Option β
  | [], _ => none
  | (k', v) :: rest, k => if k' = k then some v else mapGet rest k

/-- Removal `delete(m, k)`. -/
def mapDelete {κ β : Type} [DecidableEq κ] (m : List (κ × β)) (k : κ) : List (κ × β) :=
  m.filter (fun e => decide (e.1 ≠ k))

/-- Assignment `m[k] = v`. -/
def mapSet {κ β : Type} [DecidableEq κ] (m : List (κ × β)) (k : κ) (v : β) : List (κ × β) :=
  (k, v) :: mapDelete m k

/-! ## dbr_instance.go -/

/-- Type `DbrInstance`. -/
structure DbrInstance where
  handle : GoString
  dbname : GoString
  connectionUsername : GoString
  connectionPassword : GoString
  dbrUsername : GoString
  dbrPassword : GoString
  host : GoString
  dbfile : Option GoString
  module : GoString
  tag : Option GoString
  deriving DecidableEq, Repr

/-- The zero value `var i DbrInstance`. -/
def DbrInstance.zero : DbrInstance :=
  ⟨[], [], [], [], [], [], [], none, [], none⟩

/-- Method `(*DbrInstance).Copy`; a nil receiver yields nil. -/
def DbrInstance.Copy (dbr : Option DbrInstance) : Option DbrInstance :=
  match dbr with
  | none => none
  | some d =>
    let copy := d
    let copy := { copy with dbfile := none }
    let copy := match d.dbfile with
      | some f => { copy with dbfile := some f }
      | none => copy
    let copy := { copy with tag := none }
    let copy := match d.tag with
      | some t => { copy with tag := some t }
      | none => copy
    some copy

/-! ## rows.go -/

/-- Model of a `*sql.Rows` cursor of the standard library.  `pending` are the
rows not yet fetched, each with the outcome of scanning it into the
destinations of the loop that reads the cursor; `endErr` is the error the driver
reports when the rows run out. -/
structure SqlRows (α : Type) where
  pending : List (Except Error α)
  current : Option (Except Error α)
  endErr : Option Error
  lasterr : Option Error
  closed : Bool

/-- A cursor as returned by a successful query. -/
def SqlRows.fresh {α : Type} (pending : List (Except Error α)) (endErr : Option Error) :
    SqlRows α :=
  ⟨pending, none, endErr, none, false⟩

/-- Model of `(*sql.Rows).Next`. -/
def SqlRows.Next {α : Type} (c : SqlRows α) : Bool × SqlRows α :=
  if c.closed then (false, c)
  else
    match c.pending with
    | [] => (false, { c with closed := true, lasterr := c.endErr })
    | x :: rest => (true, { c with pending := rest, current := some x })

/-- Model of `(*sql.Rows).Scan`. -/
def SqlRows.Scan {α : Type} (c : SqlRows α) : Except Error α :=
  match c.current with
  | some x => x
  | none => .error (bytes "sql: Scan called without calling Next")

/-- Model of `(*sql.Rows).Err`. -/
def SqlRows.Err {α : Type} (c : SqlRows α) : Option Error := c.lasterr

/-- Model of `(*sql.Rows).Close`. -/
def SqlRows.Close {α : Type} (c : SqlRows α) : SqlRows α := { c with closed := true }

/-- Type `Rows`. -/
structure Rows (α : Type) where
  rows : Option (SqlRows α)
  err : Option Error

/-- Function `WrapRows`. -/
def WrapRows {α : Type} (rows : Option (SqlRows α)) (err : Option Error) : Rows α :=
  { rows := rows, err := err }

/-- Method `(*Rows).Close`. -/
def Rows.Close {α : Type} (r : Rows α) : Rows α :=
  match r.rows with
  | some _ => { r with rows := none }
  | none => r

/-- Method `(*Rows).Scan`.  Returns the result, the values stored into the
destinations (if any) and the wrapper afterwards. -/
def Rows.Scan {α : Type} (r : Rows α) : Bool × Option α × Rows α :=
  match r.rows with
  | none => (false, none, r)
  | some c =>
    let (more, c) := c.Next
    if more then
      match c.Scan with
      | .ok a => (true, some a, { rows := some c, err := none })
      | .error e => (false, none, Rows.Close { rows := some c, err := some e })
    else
      (false, none, { rows := some c.Close, err := c.Err })

/-- Method `(*Rows).Err`. -/
def Rows.Err {α : Type} (r : Rows α) : Option Error := r.err

/-- Function `QueryContext`; `q` is what `db.QueryContext` returns. -/
def QueryContext {α : Type} (dbErr : Option Error) (q : Except Error (SqlRows α)) : Rows α :=
  match dbErr with
  | some e => { rows := none, err := some e }
  | none =>
    match q with
    | .error e => { rows := none, err := some e }
    | .ok rows => { rows := some rows, err := none }

/-- Loop bound for `for rows.Scan(...) { ... }`: one more than the rows left. -/
def Rows.bound {α : Type} (r : Rows α) : Nat :=
  match r.rows with
  | none => 1
  | some c => c.pending.length + 1

/-- Loop `for r.Scan(dest...) { body }`. -/
def scanLoop {α σ : Type} (body : σ → α → Exec σ) : Nat → Rows α → σ → Exec (Rows α × σ)
  | 0, _, _ => .fuel
  | n + 1, r, s =>
    match r.Scan with
    | (true, some a, r') =>
      match body s a with
      | .done s' => scanLoop body n r' s'
      | .panic => .panic
      | .fuel => .fuel
    | (_, _, r') => .done (r', s)

/-! ## account.go -/

/-- Type `Account` (the back-reference `pool` is an argument of `Account.DB`). -/
structure Account where
  id : Int
  active : Bool
  name : GoString
  clientKey : GoString
  db : Option Handle
  dbErr : Option Error
  dbLock : Bool
  config : Option DbrInstance
  ops : Option DbrInstance
  deriving DecidableEq, Repr

/-- The literal `&Account{id: id, pool: p}`. -/
def Account.new (id : Int) : Account :=
  ⟨id, false, [], [], none, none, false, none, none⟩

/-- Method `(*Account).Active`. -/
def Account.Active (a : Account) : Bool := a.active

/-- Method `(*Account).SetActive`. -/
def Account.SetActive (a : Account) (active : Bool) : Account := { a with active := active }

/-- Method `(*Account).Name`. -/
def Account.Name (a : Account) : GoString := a.name

/-- Method `(*Account).ClientKey`. -/
def Account.ClientKey (a : Account) : GoString := a.clientKey

/-- Method `(*Account).setInfo`. -/
def Account.setInfo (a : Account) (name clientKey : GoString) : Account :=
  { a with name := name, clientKey := clientKey }

/-- Method `(*Account).DbrConfig`. -/
def Account.DbrConfig (a : Account) : Option DbrInstance := DbrInstance.Copy a.config

/-- Method `(*Account).setDbrConfig`. -/
def Account.setDbrConfig (a : Account) (config : DbrInstance) : Account :=
  { a with config := some config }

/-- Method `(*Account).DbrOps`. -/
def Account.DbrOps (a : Account) : Option DbrInstance := DbrInstance.Copy a.ops

/-- Method `(*Account).setDbrOps`. -/
def Account.setDbrOps (a : Account) (ops : DbrInstance) : Account :=
  { a with ops := some ops }

/-- Method `(*Account).QueryPrep`; dereferencing a nil descriptor panics. -/
def Account.QueryPrep (a : Account) (query : GoString) : Exec GoString :=
  match a.config, a.ops with
  | some config, some ops =>
    .done (Replace (Replace query (bytes "\x7bconfig\x7d") config.dbname)
      (bytes "\x7bops\x7d") ops.dbname)
  | _, _ => .panic

/-! ## common.go -/

/-- Type `Common`: the bootstrap descriptor, the roster `accounts`, the
connection cache `accountDB` and the `closing` flag.  (The bootstrap handle and
the enum tables play no part in the operations below.) -/
structure Common where
  commonDbrConfig : DbrInstance
  accounts : List (Int × Account)
  accountDB : List (GoString × Handle)
  closing : Bool
  deriving DecidableEq, Repr

/-- The registry as `Open` allocates it, before it opens the bootstrap
connection: empty roster, empty connection cache, not closing. -/
def Common.init (conf : DbrInstance) : Common :=
  ⟨conf, [], [], false⟩

/-- The connection-target string `dsn` computed at the head of
`OpenInstance`; `none` for a module other than `Mysql`. -/
def dsnOf (i : DbrInstance) : Option GoString :=
  if i.module = bytes "Mysql" then
    if HasPrefix i.host (bytes "/") then
      some (i.connectionUsername ++ bytes ":" ++ i.connectionPassword ++ bytes "@unix("
        ++ i.host ++ bytes ")/?collation=utf8mb4_unicode_ci")
    else
      some (i.connectionUsername ++ bytes ":" ++ i.connectionPassword ++ bytes "@tcp("
        ++ i.host ++ bytes ":" ++ bytes "3306" ++ bytes ")/?collation=utf8mb4_unicode_ci")
  else none

/-- Method `(*Common).OpenInstance` for a non-nil descriptor.  `sqlOpen` gives
the outcome `sql.Open(module, dsn)` would have at this call. -/
def Common.OpenInstance (sqlOpen : GoString → GoString → Except Error Handle)
    (p : Common) (i : DbrInstance) : (Option Handle × Option Error) × Common :=
  match dsnOf i with
  | none => ((none, some (bytes "unhandled module " ++ i.module)), p)
  | some dsn =>
    if p.closing then ((none, some (bytes "Pool being closed")), p)
    else
      match mapGet p.accountDB dsn with
      | some db => ((some db, none), p)
      | none =>
        match sqlOpen (bytes "mysql") dsn with
        | .error err => ((none, some err), p)
        | .ok db => ((some db, none), { p with accountDB := mapSet p.accountDB dsn db })

/-- Method `(*Common).setAccount`. -/
def Common.setAccount (p : Common) (id : Int) (acct : Account) : Common :=
  { p with accounts := mapSet p.accounts id acct }

/-- Method `(*Common).Account`. -/
def Common.Account (p : Common) (id : Int) : Option Account :=
  mapGet p.accounts id

/-- Method `(*Common).deleteAccount`. -/
def Common.deleteAccount (p : Common) (id : Int) : Common :=
  { p with accounts := mapDelete p.accounts id }

/-- Method `(*Common).Accounts`: a snapshot of the roster values. -/
def Common.Accounts (p : Common) : List Ropdb.Account :=
  p.accounts.map (fun e => e.2)

/-- Method `(*Common).Close`.  `dbClose` gives the outcome of `db.Close()` for
each cached handle.  Go does not fix the order in which `range` visits a map:
`order` maps the cache to the sequence of its entries as the runtime yields
them in this call, a permutation of the cache.  The returned error is that of
the last visited handle whose close failed. -/
def Common.Close (dbClose : Handle → Option Error)
    (order : List (GoString × Handle) → List (GoString × Handle)) (p : Common) :
    Option Error × Common :=
  let p := { p with closing := true }
  let someErr := (order p.accountDB).foldl
    (fun someErr e => match dbClose e.2 with
      | some err => some err
      | none => someErr) none
  (someErr, p)

/-- Method `(*Account).DB` with `pool` the registry the account belongs to.
The `sync.Once` `dbLock` runs the open at most once; a nil `config` panics
inside it, which also uses the `Once` up. -/
def Account.DB (sqlOpen : GoString → GoString → Except Error Handle)
    (a : Account) (pool : Common) : Exec (Option Handle × Option Error) × Account × Common :=
  if a.dbLock then (.done (a.db, a.dbErr), a, pool)
  else
    match a.config with
    | none => (.panic, { a with dbLock := true }, pool)
    | some config =>
      let (r, pool) := pool.OpenInstance sqlOpen config
      let a := { a with db := r.1, dbErr := r.2, dbLock := true }
      (.done (a.db, a.dbErr), a, pool)

/-- A row of `dbr.dbr_instances` as scanned by `ReadAccounts`. -/
structure InstanceRow where
  handle : GoString
  username : GoString
  password : GoString
  dbname : GoString
  dbfile : Option GoString
  host : GoString
  module : GoString
  tag : Option GoString
  deriving DecidableEq, Repr

/-- A row of `directory.client` as scanned by `ReadAccounts`. -/
structure ClientRow where
  id : Int
  name : GoString
  clientkey : GoString
  deriving DecidableEq, Repr

/-- The effect of a successful `irows.Scan(&i.handle, ..., &i.tag)` on the loop
variable `i`. -/
def scanInstance (i : DbrInstance) (r : InstanceRow) : DbrInstance :=
  { i with handle := r.handle, dbrUsername := r.username, dbrPassword := r.password,
           dbname := r.dbname, dbfile := r.dbfile, host := r.host, module := r.module,
           tag := r.tag }

/-- Body of the first loop of `ReadAccounts`, on the registry and the loop
variable `i`. -/
def instanceBody (s : Common × DbrInstance) (r : InstanceRow) : Exec (Common × DbrInstance) :=
  let p := s.1
  let i := scanInstance s.2 r
  match i.tag with
  | none => .done (p, i)
  | some tag =>
    match tag with
    | [] => .panic
    | _ :: rest =>
      match Atoi rest with
      | none => .done (p, i)
      | some id =>
        if id = 0 then .done (p, i)
        else
          let (acct, p) := match p.Account id with
            | some acct => (acct, p)
            | none => (Account.new id, p.setAccount id (Account.new id))
          let icopy := i
          if i.handle = bytes "config" then
            .done (p.setAccount id (acct.setDbrConfig icopy), i)
          else if i.handle = bytes "ops" then
            .done (p.setAccount id (acct.setDbrOps icopy), i)
          else .done (p, i)

/-- Body of the second loop of `ReadAccounts`. -/
def clientBody (p : Common) (r : ClientRow) : Exec Common :=
  match p.Account r.id with
  | none => .done p
  | some acct =>
    if acct.DbrConfig ≠ none ∧ acct.DbrOps ≠ none then
      .done (p.setAccount r.id ((acct.SetActive true).setInfo r.name r.clientkey))
    else .done p

/-- The final loop of `ReadAccounts` over the snapshot `p.Accounts()`. -/
def pruneLoop (p : Common) : List Account → Common
  | [] => p
  | acct :: rest =>
    if !acct.Active then pruneLoop (p.deleteAccount acct.id) rest
    else pruneLoop p rest

/-- Method `(*Common).ReadAccounts`.  `iq` and `cq` are what the bootstrap
handle returns for the query on `dbr.dbr_instances` and on `directory.client`.
The result is the returned error and the registry afterwards. -/
def Common.ReadAccounts (iq : Except Error (SqlRows InstanceRow))
    (cq : Except Error (SqlRows ClientRow)) (p : Common) : Exec (Option Error × Common) :=
  let irows := QueryContext none iq
  let i := { DbrInstance.zero with
    connectionUsername := p.commonDbrConfig.connectionUsername,
    connectionPassword := p.commonDbrConfig.connectionPassword }
  match scanLoop instanceBody irows.bound irows (p, i) with
  | .panic => .panic
  | .fuel => .fuel
  | .done (irows, (p, _)) =>
    if irows.Err ≠ none then .done (irows.Err, p)
    else
      let crows := QueryContext none cq
      match scanLoop clientBody crows.bound crows p with
      | .panic => .panic
      | .fuel => .fuel
      | .done (crows, p) =>
        if crows.Err ≠ none then .done (crows.Err, p)
        else .done (none, pruneLoop p p.Accounts)

/-- A query result that delivers exactly the rows `rs`, without error. -/
def delivers {α : Type} (rs : List α) : Except Error (SqlRows α) :=
  .ok (SqlRows.fresh (rs.map Except.ok) none)

/-! ## Sequences of operations on one registry -/

/-- What `sql.Open(module, dsn)` returns at one call. -/
abbrev SqlOpen := GoString → GoString → Except Error Handle

/-- The state-changing operations a caller can perform on a registry: the
exported methods of `Common` that write its state, and `DB` and `SetActive` on
an account of its roster. -/
inductive Op where
  | openInstance (sqlOpen : SqlOpen) (i : DbrInstance)
  | close (dbClose : Handle → Option Error)
      (order : List (GoString × Handle) → List (GoString × Handle))
  | readAccounts (iq : Except Error (SqlRows InstanceRow))
      (cq : Except Error (SqlRows ClientRow))
  | accountDB (sqlOpen : SqlOpen) (id : Int)
  | setActive (id : Int) (active : Bool)

/-- The registry after one operation; `none` when `ReadAccounts` does not
return. -/
def Op.apply : Op → Common → Option Common
  | .openInstance sqlOpen i, p => some (p.OpenInstance sqlOpen i).2
  | .close dbClose order, p => some (p.Close dbClose order).2
  | .readAccounts iq cq, p =>
    match p.ReadAccounts iq cq with
    | .done (_, q) => some q
    | _ => none
  | .accountDB sqlOpen id, p =>
    match p.Account id with
    | none => some p
    | some a => some ((a.DB sqlOpen p).2.2.setAccount id (a.DB sqlOpen p).2.1)
  | .setActive id active, p =>
    match p.Account id with
    | none => some p
    | some a => some (p.setAccount id (a.SetActive active))

/-- The registry after a sequence of operations. -/
def runOps : List Op → Common → Option Common
  | [], p => some p
  | op :: ops, p => (op.apply p).bind (runOps ops)

/-- A sequence of `DB()` calls on one account object: each call comes with the
outcome `sql.Open` would have and the state of the registry at that moment.
Yields, per call, what it returned and the registry afterwards. -/
def dbCalls (a : Account) :
    List (SqlOpen × Common) → List (Exec (Option Handle × Option Error) × Common)
  | [] => []
  | (sqlOpen, pool) :: rest =>
    ((a.DB sqlOpen pool).1, (a.DB sqlOpen pool).2.2) :: dbCalls (a.DB sqlOpen pool).2.1 rest

/-! ## Loops over a cursor, as folds -/

/-- The rows a loop over a cursor gets to process: those before the first row
whose scan fails. -/
def okRows {α : Type} : List (Except Error α) → List α
  | [] => []
  | .ok a :: rest => a :: okRows rest
  | .error _ :: _ => []

/-- The error a loop over a cursor ends with: that of the first row whose scan
fails, otherwise the one reported at the end of the rows. -/
def scanErr {α : Type} : List (Except Error α) → Option Error → Option Error
  | [], e => e
  | .ok _ :: rest, e => scanErr rest e
  | .error x :: _, _ => some x

/-- A loop body run over a list of rows. -/
def foldExec {α σ : Type} (body : σ → α → Exec σ) : List α → σ → Exec σ
  | [], s => .done s
  | a :: rest, s =>
    match body s a with
    | .done s' => foldExec body rest s'
    | .panic => .panic
    | .fuel => .fuel

/-- The loop variable `i` of `ReadAccounts` before the first scan. -/
def instanceVar (p : Common) : DbrInstance :=
  { DbrInstance.zero with
    connectionUsername := p.commonDbrConfig.connectionUsername,
    connectionPassword := p.commonDbrConfig.connectionPassword }

/-- What the code after a loop looks at: the error `rows.Err()` and the state. -/
def loopResult {α σ : Type} (e : Exec (Rows α × σ)) : Exec (Option Error × σ) :=
  match e with
  | .done (r, s) => .done (r.Err, s)
  | .panic => .panic
  | .fuel => .fuel

/-- Pairs the state a loop ends in with the error it ends with. -/
def withErr {σ : Type} (e : Exec σ) (err : Option Error) : Exec (Option Error × σ) :=
  match e with
  | .done s => .done (err, s)
  | .panic => .panic
  | .fuel => .fuel

/-! ## The effect of one reconciliation pass on one roster entry -/

/-- The account id the first loop of `ReadAccounts` derives from a row:
`strconv.Atoi` of the tag without its first byte, when that succeeds with a
non-zero value.  `none` for a row the loop skips (and for an empty tag, where
the slice expression panics). -/
def rowId (r : InstanceRow) : Option Int :=
  match r.tag with
  | none => none
  | some [] => none
  | some (_ :: rest) =>
    match Atoi rest with
    | none => none
    | some id => if id = 0 then none else some id

/-- The descriptor `icopy` the first loop builds from a row: the connection
credentials of the bootstrap descriptor, everything else from the row. -/
def mkInstance (cu cp : GoString) (r : InstanceRow) : DbrInstance :=
  { handle := r.handle, dbname := r.dbname, connectionUsername := cu,
    connectionPassword := cp, dbrUsername := r.username, dbrPassword := r.password,
    host := r.host, dbfile := r.dbfile, module := r.module, tag := r.tag }

/-- Effect of one instances row on the roster entry for id `k`. -/
def instanceStep (cu cp : GoString) (k : Int) (x : Option Account) (r : InstanceRow) :
    Option Account :=
  if rowId r = some k then
    if r.handle = bytes "config" then
      some ((x.getD (Account.new k)).setDbrConfig (mkInstance cu cp r))
    else if r.handle = bytes "ops" then
      some ((x.getD (Account.new k)).setDbrOps (mkInstance cu cp r))
    else some (x.getD (Account.new k))
  else x

/-- Effect of one directory row on the roster entry for id `k`. -/
def clientStep (k : Int) (x : Option Account) (r : ClientRow) : Option Account :=
  if r.id = k then
    match x with
    | none => none
    | some a =>
      if a.config ≠ none ∧ a.ops ≠ none then
        some ((a.SetActive true).setInfo r.name r.clientkey)
      else some a
  else x

/-- The last element of a list that satisfies `P`. -/
def lastMatch {α : Type} (P : α → Bool) : List α → Option α
  | [] => none
  | a :: rest =>
    match lastMatch P rest with
    | some b => some b
    | none => if P a then some a else none

/-- Representation invariant of the roster: no id occurs twice and every
account is stored under its own id.  `Open` establishes it (empty roster) and
`setAccount(id, &Account{id: id, ...})`, the only insertion, maintains it. -/
def Common.WF (p : Common) : Prop :=
  (p.accounts.map (fun e => e.1)).Nodup ∧ ∀ e ∈ p.accounts, e.2.id = e.1

instance (p : Common) : Decidable p.WF := by
  unfold Common.WF
  infer_instance

/-- Effect of the pruning loop on one roster entry. -/
def keepActive (x : Option Account) : Option Account :=
  match x with
  | none => none
  | some a => if a.active then some a else none

/-- Effect of one successful pass over instances rows `irows` and directory
rows `crows` on the roster entry for id `k`; `cu`, `cp` are the connection
credentials of the bootstrap descriptor. -/
def passEntry (cu cp : GoString) (irows : List InstanceRow) (crows : List ClientRow)
    (k : Int) (x : Option Account) : Option Account :=
  keepActive (crows.foldl (clientStep k) (irows.foldl (instanceStep cu cp k) x))

/-- First alternative that is present. -/
def orElse {α : Type} (a b : Option α) : Option α :=
  match a with
  | some x => some x
  | none => b

/-- Whether the first loop assigns a row to id `k`. -/
def forId (k : Int) (r : InstanceRow) : Bool := decide (rowId r = some k)

/-- Whether the first loop assigns a row to id `k` and attaches it under the
role `h` ("config" or "ops"). -/
def forRole (h : GoString) (k : Int) (r : InstanceRow) : Bool :=
  decide (rowId r = some k) && decide (r.handle = h)

/-- Closed form of the first loop on one roster entry. -/
def instanceEntry (cu cp : GoString) (irows : List InstanceRow) (k : Int)
    (x : Option Account) : Option Account :=
  if irows.any (forId k) then
    some { x.getD (Account.new k) with
      config := orElse ((lastMatch (forRole (bytes "config") k) irows).map (mkInstance cu cp))
        (x.getD (Account.new k)).config
      ops := orElse ((lastMatch (forRole (bytes "ops") k) irows).map (mkInstance cu cp))
        (x.getD (Account.new k)).ops }
  else x

/-- Closed form of the second loop on one roster entry. -/
def clientEntry (crows : List ClientRow) (k : Int) (x : Option Account) : Option Account :=
  match x with
  | none => none
  | some a =>
    if a.config ≠ none ∧ a.ops ≠ none then
      match lastMatch (fun r => decide (r.id = k)) crows with
      | some r => some ((a.SetActive true).setInfo r.name r.clientkey)
      | none => some a
    else some a

/-! ## The tag `t<id>` -/

/-- The decimal digits of `n` as ASCII bytes, most significant first, put in
front of `acc`; `fuel` bounds the number of digits. -/
def decimalAux : Nat → Nat → List Nat → List Nat
  | 0, _, acc => acc
  | fuel + 1, n, acc =>
    if n < 10 then (48 + n) :: acc
    else decimalAux fuel (n / 10) ((48 + n % 10) :: acc)

/-- The decimal numeral of a natural number. -/
def decimal (n : Nat) : GoString := decimalAux (n + 1) n []

/-- The decimal numeral of an integer, as Go `strconv.Itoa` writes it: a
leading `-` (45) for a negative number. -/
def Itoa (i : Int) : GoString :=
  if i < 0 then 45 :: decimal i.natAbs else decimal i.natAbs

/-- The tag `t<id>`: the letter `t` (116) followed by the decimal numeral of
the id. -/
def tagOf (id : Int) : GoString := 116 :: Itoa id

/-! ## Example data -/

/-- The account a caller finds under `id` once a pass has returned without
error. -/
def accountAfter (e : Exec (Option Error × Common)) (id : Int) : Option Account :=
  match e with
  | .done (none, q) => q.Account id
  | _ => none

/-- A bootstrap descriptor. -/
def exConf : DbrInstance :=
  { DbrInstance.zero with
    handle := bytes "main", dbname := bytes "dbr", connectionUsername := bytes "boot",
    connectionPassword := bytes "secret", host := bytes "db0", module := bytes "Mysql" }

/-- An instances row on host `db1` with the given handle, tag and database name. -/
def exRow (handle tag dbname : String) : InstanceRow :=
  { handle := bytes handle, username := bytes "u", password := bytes "pw",
    dbname := bytes dbname, dbfile := none, host := bytes "db1", module := bytes "Mysql",
    tag := some (bytes tag) }

/-- The instances rows of the end-to-end scenario: tag `t7`, handles `config`
and `ops`. -/
def exInstances7 : List InstanceRow :=
  [exRow "config" "t7" "t7cfg", exRow "ops" "t7" "t7ops"]

/-- The directory row of the end-to-end scenario. -/
def exDirectory7 : List ClientRow := [⟨7, bytes "Acme", bytes "key123"⟩]

/-- The account of the end-to-end scenario after reconciliation. -/
def exAccount7 : Account :=
  { id := 7, active := true, name := bytes "Acme", clientKey := bytes "key123",
    db := none, dbErr := none, dbLock := false,
    config := some (mkInstance (bytes "boot") (bytes "secret") (exRow "config" "t7" "t7cfg")),
    ops := some (mkInstance (bytes "boot") (bytes "secret") (exRow "ops" "t7" "t7ops")) }

/-- The registry of the end-to-end scenario after reconciliation. -/
def exRegistry7 : Common :=
  { commonDbrConfig := exConf, accounts := [(7, exAccount7)], accountDB := [],
    closing := false }

/-- A tag of the form the specification describes: the letter `t` followed by
the decimal digits of a positive integer. -/
def isTenantTag (tag : GoString) : Prop := ∃ n : Nat, 0 < n ∧ tag = 116 :: decimal n

/-- Forgets the loop variable of the first loop. -/
def dropVar (e : Exec (Common × DbrInstance)) : Exec Common :=
  match e with
  | .done (p, _) => .done p
  | .panic => .panic
  | .fuel => .fuel

/-- An `sql.Open` that succeeds with handle 1. -/
def exOpen : SqlOpen := fun _ _ => .ok 1

/-- An `sql.Open` that succeeds with handle 2. -/
def exOpen2 : SqlOpen := fun _ _ => .ok 2

/-- An `sql.Open` that fails. -/
def exOpenFails : SqlOpen := fun _ _ => .error (bytes "invalid DSN")

/-- A `db.Close` that succeeds. -/
def exClose : Handle → Option Error := fun _ => none

/-- A `db.Close` that fails on every handle, with an error naming the handle. -/
def exCloseFails : Handle → Option Error := fun h => some [h]

/-- A registry whose cache holds two handles. -/
def exTwoHandles : Common :=
  { Common.init exConf with accountDB := [(bytes "a", 1), (bytes "b", 2)] }

/-- An account with the `config` descriptor of the end-to-end scenario and a
handle not yet opened. -/
def exAccountNew : Account := { exAccount7 with active := false }

/-- The `config` descriptor of account 7 in the end-to-end scenario. -/
def exConfig7 : DbrInstance :=
  mkInstance (bytes "boot") (bytes "secret") (exRow "config" "t7" "t7cfg")

/-- The `ops` descriptor of account 7 in the end-to-end scenario. -/
def exOps7 : DbrInstance :=
  mkInstance (bytes "boot") (bytes "secret") (exRow "ops" "t7" "t7ops")

/-- The connection target of both descriptors of account 7. -/
def exTarget7 : GoString := bytes "boot:secret@tcp(db1:3306)/?collation=utf8mb4_unicode_ci"

/-- A registry whose cache holds handle 1 for the target of account 7. -/
def exOpened : Common := { Common.init exConf with accountDB := [(exTarget7, 1)] }

/-- The registry of the end-to-end scenario after `Close`. -/
def exClosed : Common := { exRegistry7 with closing := true }

/-! ## Placeholder substitution, as specified -/

/-- The placeholder `{config}`. -/
def configToken : GoString := bytes "\x7bconfig\x7d"

/-- The placeholder `{ops}`. -/
def opsToken : GoString := bytes "\x7bops\x7d"

/-- The substitution the specification describes: in one pass over the
caller's text, each occurrence of `{config}` is replaced by `cfg` and each
occurrence of `{ops}` by `ops`; every other byte is copied, and substituted
text is not looked at again.  The counter is the number of bytes of the current
placeholder still to skip. -/
def substituteBoth (cfg ops : GoString) : Nat → GoString → GoString
  | _, [] => []
  | skip + 1, _ :: s => substituteBoth cfg ops skip s
  | 0, c :: s =>
    if configToken.isPrefixOf (c :: s) then cfg ++ substituteBoth cfg ops 7 s
    else if opsToken.isPrefixOf (c :: s) then ops ++ substituteBoth cfg ops 4 s
    else c :: substituteBoth cfg ops 0 s

/-- An account whose `config` database is named `{ops}` and whose `ops`
database is named `X`. -/
def exAccountBraces : Account :=
  { exAccount7 with
    config := some { exConfig7 with dbname := bytes "\x7bops\x7d" },
    ops := some { exOps7 with dbname := bytes "X" } }

/-- An account whose `config` database is named `ops` and whose `ops` database
is named `X`. -/
def exAccountOps : Account :=
  { exAccount7 with
    config := some { exConfig7 with dbname := bytes "ops" },
    ops := some { exOps7 with dbname := bytes "X" } }

end Ropdb

/-! # Theorems -/

namespace Ropdb

/-! ## Maps -/

theorem mapGet_mapDelete {κ β : Type} [DecidableEq κ] (m : List (κ × β)) (k k' : κ) :
    mapGet (mapDelete m k) k' = if k = k' then none else mapGet m k' := by
  induction m with
  | nil => simp [mapDelete, mapGet]
  | cons e m ih =>
    obtain ⟨a, v⟩ := e
    unfold mapDelete at ih ⊢
    by_cases h : a = k
    · subst h
      by_cases h2 : a = k' <;> simpa [List.filter_cons, mapGet, h2] using ih
    · by_cases h2 : a = k'
      · subst h2
        simp [List.filter_cons, mapGet, h, Ne.symm h]
      · simpa [List.filter_cons, mapGet, h, h2] using ih

theorem mapGet_mapSet {κ β : Type} [DecidableEq κ] (m : List (κ × β)) (k k' : κ) (v : β) :
    mapGet (mapSet m k v) k' = if k = k' then some v else mapGet m k' := by
  by_cases h : k = k'
  · simp [mapSet, mapGet, h]
  · simp [mapSet, mapGet, h, mapGet_mapDelete]

/-! ## Loops over a cursor -/

theorem scanLoop_fresh {α σ : Type} (body : σ → α → Exec σ) (ps : List (Except Error α)) :
    ∀ (n : Nat) (c : SqlRows α) (err0 : Option Error) (s : σ),
      c.closed = false → c.pending = ps → ps.length < n →
      loopResult (scanLoop body n ⟨some c, err0⟩ s) =
        withErr (foldExec body (okRows ps) s) (scanErr ps c.endErr) := by
  induction ps with
  | nil =>
    intro n c err0 s hc hp hn
    obtain ⟨m, rfl⟩ : ∃ m, n = m + 1 := ⟨n - 1, by simp at hn; omega⟩
    simp [okRows, foldExec, scanErr, withErr, scanLoop, Rows.Scan, SqlRows.Next, hc, hp,
      loopResult, Rows.Err, SqlRows.Err, SqlRows.Close]
  | cons x rest ih =>
    intro n c err0 s hc hp hn
    obtain ⟨m, rfl⟩ : ∃ m, n = m + 1 := ⟨n - 1, by simp at hn; omega⟩
    cases x with
    | error e =>
      simp [okRows, foldExec, scanErr, withErr, scanLoop, Rows.Scan, SqlRows.Next, hc, hp,
        loopResult, Rows.Err, SqlRows.Scan, Rows.Close]
    | ok a =>
      simp only [okRows, foldExec, scanErr]
      have hstep : scanLoop body (m + 1) ⟨some c, err0⟩ s =
          match body s a with
          | .done s' => scanLoop body m
              ⟨some { c with pending := rest, current := some (.ok a) }, none⟩ s'
          | .panic => .panic
          | .fuel => .fuel := by
        simp [scanLoop, Rows.Scan, SqlRows.Next, hc, hp, SqlRows.Scan]
      rw [hstep]
      cases hb : body s a with
      | panic => simp [loopResult, withErr]
      | fuel => simp [loopResult, withErr]
      | done s' =>
        simp only
        exact ih m { c with pending := rest, current := some (.ok a) } none s' hc rfl
          (by simp at hn; omega)


theorem withErr_of_done {α σ : Type} (r : Rows α) (s : σ) (f : Exec σ)
    (err : Option Error) (h : loopResult (.done (r, s)) = withErr f err) :
    f = .done s ∧ r.Err = err := by
  cases f <;> simp [loopResult, withErr] at h ⊢
  exact ⟨h.2.symm, h.1⟩

theorem withErr_of_panic {α σ : Type} (f : Exec σ)
    (err : Option Error) (h : loopResult (.panic : Exec (Rows α × σ)) = withErr f err) :
    f = .panic := by
  cases f <;> simp [loopResult, withErr] at h ⊢

theorem withErr_of_fuel {α σ : Type} (f : Exec σ)
    (err : Option Error) (h : loopResult (.fuel : Exec (Rows α × σ)) = withErr f err) :
    f = .fuel := by
  cases f <;> simp [loopResult, withErr] at h ⊢

theorem ReadAccounts_fresh (ips : List (Except Error InstanceRow)) (ie : Option Error)
    (cps : List (Except Error ClientRow)) (ce : Option Error) (p : Common) :
    p.ReadAccounts (.ok (SqlRows.fresh ips ie)) (.ok (SqlRows.fresh cps ce)) =
      match foldExec instanceBody (okRows ips) (p, instanceVar p) with
      | .panic => .panic
      | .fuel => .fuel
      | .done (p1, _) =>
        if scanErr ips ie ≠ none then .done (scanErr ips ie, p1)
        else
          match foldExec clientBody (okRows cps) p1 with
          | .panic => .panic
          | .fuel => .fuel
          | .done p2 =>
            if scanErr cps ce ≠ none then .done (scanErr cps ce, p2)
            else .done (none, pruneLoop p2 p2.Accounts) := by
  have h1 := scanLoop_fresh instanceBody ips (ips.length + 1) (SqlRows.fresh ips ie) none
      (p, instanceVar p) rfl rfl (by omega)
  have h2 := fun p1 => scanLoop_fresh clientBody cps (cps.length + 1) (SqlRows.fresh cps ce)
      none p1 rfl rfl (by omega)
  unfold Common.ReadAccounts
  simp only [QueryContext, Rows.bound, SqlRows.fresh] at h1 h2 ⊢
  change (match scanLoop instanceBody (ips.length + 1) _ (p, instanceVar p) with
    | .panic => _ | .fuel => _ | .done (irows, (p, _)) => _) = _
  cases hl : scanLoop instanceBody (ips.length + 1)
      { rows := some ⟨ips, none, ie, none, false⟩, err := none } (p, instanceVar p) with
  | panic => rw [hl] at h1; simp only [withErr_of_panic _ _ h1]
  | fuel => rw [hl] at h1; simp only [withErr_of_fuel _ _ h1]
  | done rs =>
    obtain ⟨r, p1, i1⟩ := rs
    rw [hl] at h1
    have h1 := withErr_of_done _ _ _ _ h1
    simp only [h1.1, h1.2]
    by_cases he : scanErr ips ie = none
    · simp only [he, ne_eq, not_true_eq_false, if_false]
      have h2 := h2 p1
      cases hl2 : scanLoop clientBody (cps.length + 1)
        { rows := some ⟨cps, none, ce, none, false⟩, err := none } p1 with
      | panic => rw [hl2] at h2; simp only [withErr_of_panic _ _ h2]
      | fuel => rw [hl2] at h2; simp only [withErr_of_fuel _ _ h2]
      | done rs2 =>
        obtain ⟨r2, p2⟩ := rs2
        rw [hl2] at h2
        have h2 := withErr_of_done _ _ _ _ h2
        simp only [h2.1, h2.2]
    · simp [he]



/-! ## One reconciliation pass, entry by entry -/


theorem scanInstance_eq (i : DbrInstance) (r : InstanceRow) :
    scanInstance i r = mkInstance i.connectionUsername i.connectionPassword r := rfl

theorem Account_setAccount (p : Common) (id k : Int) (a : Account) :
    (p.setAccount id a).Account k = if id = k then some a else p.Account k := by
  simp [Common.setAccount, Common.Account, mapGet_mapSet]

theorem Account_deleteAccount (p : Common) (id k : Int) :
    (p.deleteAccount id).Account k = if id = k then none else p.Account k := by
  simp [Common.deleteAccount, Common.Account, mapGet_mapDelete]

theorem instanceBody_panic (p : Common) (i : DbrInstance) (r : InstanceRow)
    (h : r.tag = some []) : instanceBody (p, i) r = .panic := by
  simp [instanceBody, scanInstance, h]

theorem instanceBody_total (p : Common) (i : DbrInstance) (r : InstanceRow)
    (h : r.tag ≠ some []) : ∃ s, instanceBody (p, i) r = .done s := by
  unfold instanceBody
  simp only [scanInstance_eq]
  cases ht : r.tag with
  | none => simp only [mkInstance, ht]; exact ⟨_, rfl⟩
  | some tag =>
    cases tag with
    | nil => exact absurd ht h
    | cons c rest =>
      simp only [mkInstance, ht]
      split
      · exact ⟨_, rfl⟩
      · split
        · exact ⟨_, rfl⟩
        · split
          · exact ⟨_, rfl⟩
          · split
            · exact ⟨_, rfl⟩
            · exact ⟨_, rfl⟩

theorem instanceBody_var (p q : Common) (i j : DbrInstance) (r : InstanceRow)
    (h : instanceBody (p, i) r = .done (q, j)) :
    j = mkInstance i.connectionUsername i.connectionPassword r := by
  unfold instanceBody at h
  simp only [scanInstance_eq] at h
  repeat' split at h
  all_goals first
    | (injection h with h; injection h with h1 h2; exact h2.symm)
    | cases h

theorem instanceBody_spec (p q : Common) (i j : DbrInstance) (r : InstanceRow)
    (h : instanceBody (p, i) r = .done (q, j)) :
    (∀ k, q.Account k
        = instanceStep i.connectionUsername i.connectionPassword k (p.Account k) r) ∧
      q.commonDbrConfig = p.commonDbrConfig ∧ q.accountDB = p.accountDB ∧
      q.closing = p.closing := by
  unfold instanceBody at h
  simp only [scanInstance_eq] at h
  cases ht : r.tag with
  | none =>
    simp [mkInstance, ht] at h
    obtain ⟨rfl, -⟩ := h
    refine ⟨?_, rfl, rfl, rfl⟩
    intro k; simp [instanceStep, rowId, ht]
  | some tag =>
    cases tag with
    | nil => simp [mkInstance, ht] at h
    | cons c rest =>
      cases ha : Atoi rest with
      | none =>
        simp [mkInstance, ht, ha] at h
        obtain ⟨rfl, -⟩ := h
        refine ⟨?_, rfl, rfl, rfl⟩
        intro k; simp [instanceStep, rowId, ht, ha]
      | some id =>
        by_cases h0 : id = 0
        · simp [mkInstance, ht, ha, h0] at h
          obtain ⟨rfl, -⟩ := h
          refine ⟨?_, rfl, rfl, rfl⟩
          intro k; simp [instanceStep, rowId, ht, ha, h0]
        · have hid : rowId r = some id := by simp [rowId, ht, ha, h0]
          by_cases hc : r.handle = bytes "config"
          · cases hp : p.Account id with
            | none =>
              simp [mkInstance, ht, ha, h0, hp, hc] at h
              obtain ⟨rfl, -⟩ := h
              refine ⟨?_, rfl, rfl, rfl⟩
              intro k
              by_cases hk : id = k
              · subst hk
                simp [instanceStep, hid, hc, Account_setAccount, hp, mkInstance, ht]
              · simp [instanceStep, hid, hk, Account_setAccount]
            | some a =>
              simp [mkInstance, ht, ha, h0, hp, hc] at h
              obtain ⟨rfl, -⟩ := h
              refine ⟨?_, rfl, rfl, rfl⟩
              intro k
              by_cases hk : id = k
              · subst hk
                simp [instanceStep, hid, hc, Account_setAccount, hp, mkInstance, ht]
              · simp [instanceStep, hid, hk, Account_setAccount]
          · by_cases ho : r.handle = bytes "ops"
            · cases hp : p.Account id with
              | none =>
                simp [mkInstance, ht, ha, h0, hp, hc, ho] at h
                obtain ⟨rfl, -⟩ := h
                refine ⟨?_, rfl, rfl, rfl⟩
                intro k
                by_cases hk : id = k
                · subst hk
                  simp [instanceStep, hid, hc, ho, Account_setAccount, hp, mkInstance, ht,
                    (by decide : ¬ bytes "ops" = bytes "config")]
                · simp [instanceStep, hid, hk, Account_setAccount]
              | some a =>
                simp [mkInstance, ht, ha, h0, hp, hc, ho] at h
                obtain ⟨rfl, -⟩ := h
                refine ⟨?_, rfl, rfl, rfl⟩
                intro k
                by_cases hk : id = k
                · subst hk
                  simp [instanceStep, hid, hc, ho, Account_setAccount, hp, mkInstance, ht,
                    (by decide : ¬ bytes "ops" = bytes "config")]
                · simp [instanceStep, hid, hk, Account_setAccount]
            · cases hp : p.Account id with
              | none =>
                simp [mkInstance, ht, ha, h0, hp, hc, ho] at h
                obtain ⟨rfl, -⟩ := h
                refine ⟨?_, rfl, rfl, rfl⟩
                intro k
                by_cases hk : id = k
                · subst hk
                  simp [instanceStep, hid, hc, ho, Account_setAccount, hp]
                · simp [instanceStep, hid, hk, Account_setAccount]
              | some a =>
                simp [mkInstance, ht, ha, h0, hp, hc, ho] at h
                obtain ⟨rfl, -⟩ := h
                refine ⟨?_, rfl, rfl, rfl⟩
                intro k
                by_cases hk : id = k
                · subst hk
                  simp [instanceStep, hid, hc, ho, hp]
                · simp [instanceStep, hid, hk]




theorem DbrInstance_Copy_ne_none (d : Option DbrInstance) :
    DbrInstance.Copy d ≠ none ↔ d ≠ none := by
  cases d <;> simp [DbrInstance.Copy]

theorem clientBody_total (p : Common) (r : ClientRow) : ∃ q, clientBody p r = .done q := by
  unfold clientBody
  split
  · exact ⟨_, rfl⟩
  · split
    · exact ⟨_, rfl⟩
    · exact ⟨_, rfl⟩

theorem clientBody_spec (p q : Common) (r : ClientRow) (h : clientBody p r = .done q) :
    (∀ k, q.Account k = clientStep k (p.Account k) r) ∧
      q.commonDbrConfig = p.commonDbrConfig ∧ q.accountDB = p.accountDB ∧
      q.closing = p.closing := by
  unfold clientBody at h
  cases hp : p.Account r.id with
  | none =>
    simp [hp] at h
    subst h
    refine ⟨?_, rfl, rfl, rfl⟩
    intro k
    by_cases hk : r.id = k
    · subst hk; simp [clientStep, hp]
    · simp [clientStep, hk]
  | some a =>
    simp only [hp, Account.DbrConfig, Account.DbrOps, DbrInstance_Copy_ne_none] at h
    by_cases hc : a.config ≠ none ∧ a.ops ≠ none
    · rw [if_pos hc] at h
      injection h with h
      subst h
      refine ⟨?_, rfl, rfl, rfl⟩
      intro k
      by_cases hk : r.id = k
      · subst hk; simp [clientStep, hp, Account_setAccount, hc]
      · simp [clientStep, hk, Account_setAccount]
    · rw [if_neg hc] at h
      injection h with h
      subst h
      refine ⟨?_, rfl, rfl, rfl⟩
      intro k
      by_cases hk : r.id = k
      · subst hk; simp [clientStep, hp, hc]
      · simp [clientStep, hk]

theorem foldExec_instance (rows : List InstanceRow) :
    ∀ (p q : Common) (i j : DbrInstance),
      foldExec instanceBody rows (p, i) = .done (q, j) →
      (∀ k, q.Account k = rows.foldl
          (instanceStep i.connectionUsername i.connectionPassword k) (p.Account k)) ∧
        q.commonDbrConfig = p.commonDbrConfig ∧ q.accountDB = p.accountDB ∧
        q.closing = p.closing := by
  induction rows with
  | nil =>
    intro p q i j h
    simp [foldExec] at h
    obtain ⟨rfl, -⟩ := h
    exact ⟨fun k => rfl, rfl, rfl, rfl⟩
  | cons r rest ih =>
    intro p q i j h
    simp only [foldExec] at h
    cases hb : instanceBody (p, i) r with
    | panic => simp [hb] at h
    | fuel => simp [hb] at h
    | done s =>
      obtain ⟨p1, i1⟩ := s
      simp only [hb] at h
      have hv := instanceBody_var p p1 i i1 r hb
      have hs := instanceBody_spec p p1 i i1 r hb
      have := ih p1 q i1 j h
      have e1 : i1.connectionUsername = i.connectionUsername := by rw [hv]; rfl
      have e2 : i1.connectionPassword = i.connectionPassword := by rw [hv]; rfl
      rw [e1, e2] at this
      refine ⟨?_, this.2.1.trans hs.2.1, this.2.2.1.trans hs.2.2.1,
        this.2.2.2.trans hs.2.2.2⟩
      intro k
      rw [this.1 k, hs.1 k, List.foldl_cons]

theorem foldExec_instance_total (rows : List InstanceRow)
    (h : ∀ r ∈ rows, r.tag ≠ some []) :
    ∀ (s : Common × DbrInstance), ∃ t, foldExec instanceBody rows s = .done t := by
  induction rows with
  | nil => intro s; exact ⟨s, rfl⟩
  | cons r rest ih =>
    intro s
    obtain ⟨t, ht⟩ := instanceBody_total s.1 s.2 r (h r (List.mem_cons_self _ _))
    obtain ⟨u, hu⟩ := ih (fun x hx => h x (List.mem_cons_of_mem _ hx)) t
    exact ⟨u, by simp only [foldExec]; rw [show s = (s.1, s.2) from rfl, ht]; exact hu⟩

theorem foldExec_client (rows : List ClientRow) :
    ∀ (p q : Common), foldExec clientBody rows p = .done q →
      (∀ k, q.Account k = rows.foldl (clientStep k) (p.Account k)) ∧
        q.commonDbrConfig = p.commonDbrConfig ∧ q.accountDB = p.accountDB ∧
        q.closing = p.closing := by
  induction rows with
  | nil =>
    intro p q h
    simp [foldExec] at h
    subst h
    exact ⟨fun k => rfl, rfl, rfl, rfl⟩
  | cons r rest ih =>
    intro p q h
    simp only [foldExec] at h
    obtain ⟨p1, hb⟩ := clientBody_total p r
    simp only [hb] at h
    have hs := clientBody_spec p p1 r hb
    have := ih p1 q h
    refine ⟨?_, this.2.1.trans hs.2.1, this.2.2.1.trans hs.2.2.1,
      this.2.2.2.trans hs.2.2.2⟩
    intro k
    rw [this.1 k, hs.1 k, List.foldl_cons]

theorem foldExec_client_total (rows : List ClientRow) :
    ∀ (p : Common), ∃ q, foldExec clientBody rows p = .done q := by
  induction rows with
  | nil => intro p; exact ⟨p, rfl⟩
  | cons r rest ih =>
    intro p
    obtain ⟨p1, hb⟩ := clientBody_total p r
    obtain ⟨q, hq⟩ := ih p1
    exact ⟨q, by simp only [foldExec, hb]; exact hq⟩




theorem mem_of_mapGet {κ β : Type} [DecidableEq κ] (m : List (κ × β)) (k : κ) (v : β)
    (h : mapGet m k = some v) : (k, v) ∈ m := by
  induction m with
  | nil => simp [mapGet] at h
  | cons e m ih =>
    obtain ⟨a, w⟩ := e
    by_cases hk : a = k
    · simp [mapGet, hk] at h
      simp [hk, h]
    · simp [mapGet, hk] at h
      exact List.mem_cons_of_mem _ (ih h)

theorem mapGet_of_mem {κ β : Type} [DecidableEq κ] (m : List (κ × β)) (k : κ) (v : β)
    (hn : (m.map (fun e => e.1)).Nodup) (h : (k, v) ∈ m) : mapGet m k = some v := by
  induction m with
  | nil => simp at h
  | cons e m ih =>
    obtain ⟨a, w⟩ := e
    simp only [List.map_cons, List.nodup_cons] at hn
    rcases List.mem_cons.mp h with h | h
    · injection h with h1 h2
      subst h1; subst h2
      simp [mapGet]
    · have hne : a ≠ k := by
        intro hak
        subst hak
        exact hn.1 (List.mem_map.mpr ⟨(a, v), h, rfl⟩)
      simp [mapGet, hne]
      exact ih hn.2 h

theorem WF_setAccount (p : Common) (id : Int) (a : Account) (hp : p.WF) (ha : a.id = id) :
    (p.setAccount id a).WF := by
  obtain ⟨hn, he⟩ := hp
  refine ⟨?_, ?_⟩
  · simp only [Common.setAccount, mapSet, mapDelete, List.map_cons, List.nodup_cons]
    refine ⟨?_, ?_⟩
    · intro hmem
      obtain ⟨e, he1, he2⟩ := List.mem_map.mp hmem
      have := (List.mem_filter.mp he1).2
      simp at this
      exact this he2
    · exact (List.filter_sublist _).map _ |>.nodup hn
  · intro e hmem
    simp only [Common.setAccount, mapSet, mapDelete] at hmem
    rcases List.mem_cons.mp hmem with h | h
    · subst h; exact ha
    · exact he e (List.mem_filter.mp h).1

theorem WF_deleteAccount (p : Common) (id : Int) (hp : p.WF) : (p.deleteAccount id).WF := by
  obtain ⟨hn, he⟩ := hp
  refine ⟨?_, ?_⟩
  · simp only [Common.deleteAccount, mapDelete]
    exact (List.filter_sublist _).map _ |>.nodup hn
  · intro e hmem
    simp only [Common.deleteAccount, mapDelete] at hmem
    exact he e (List.mem_filter.mp hmem).1

theorem WF_Account (p : Common) (hp : p.WF) (k : Int) (a : Account)
    (h : p.Account k = some a) : a.id = k :=
  hp.2 (k, a) (mem_of_mapGet _ _ _ h)

theorem WF_init (conf : DbrInstance) : (Common.init conf).WF := by
  simp [Common.WF, Common.init]

theorem instanceBody_WF (p q : Common) (i j : DbrInstance) (r : InstanceRow) (hp : p.WF)
    (h : instanceBody (p, i) r = .done (q, j)) : q.WF := by
  unfold instanceBody at h
  simp only [scanInstance_eq] at h
  repeat' split at h
  all_goals first
    | cases h; done
    | (injection h with h; injection h with h1 h2; subst h1)
  all_goals try simp only []
  all_goals first
    | exact hp
    | exact WF_setAccount _ _ _ hp rfl
    | exact WF_setAccount _ _ _ (WF_setAccount _ _ _ hp rfl) rfl
    | (rename_i acct hacc
       exact WF_setAccount _ _ _ hp (WF_Account p hp _ acct hacc))




theorem clientBody_WF (p q : Common) (r : ClientRow) (hp : p.WF)
    (h : clientBody p r = .done q) : q.WF := by
  unfold clientBody at h
  repeat' split at h
  all_goals injection h with h; subst h
  · exact hp
  · rename_i acct hacc _
    exact WF_setAccount _ _ _ hp (WF_Account p hp _ acct hacc)
  · exact hp

theorem foldExec_instance_WF (rows : List InstanceRow) :
    ∀ (p q : Common) (i j : DbrInstance), p.WF →
      foldExec instanceBody rows (p, i) = .done (q, j) → q.WF := by
  induction rows with
  | nil =>
    intro p q i j hp h
    simp [foldExec] at h
    obtain ⟨rfl, -⟩ := h
    exact hp
  | cons r rest ih =>
    intro p q i j hp h
    simp only [foldExec] at h
    cases hb : instanceBody (p, i) r with
    | panic => simp [hb] at h
    | fuel => simp [hb] at h
    | done s =>
      obtain ⟨p1, i1⟩ := s
      simp only [hb] at h
      exact ih p1 q i1 j (instanceBody_WF p p1 i i1 r hp hb) h

theorem foldExec_client_WF (rows : List ClientRow) :
    ∀ (p q : Common), p.WF → foldExec clientBody rows p = .done q → q.WF := by
  induction rows with
  | nil =>
    intro p q hp h
    simp [foldExec] at h
    subst h
    exact hp
  | cons r rest ih =>
    intro p q hp h
    simp only [foldExec] at h
    obtain ⟨p1, hb⟩ := clientBody_total p r
    simp only [hb] at h
    exact ih p1 q (clientBody_WF p p1 r hp hb) h

theorem pruneLoop_spec (l : List Account) :
    ∀ (p : Common),
      (∀ k, (pruneLoop p l).Account k =
        if ∃ a ∈ l, a.id = k ∧ a.active = false then none else p.Account k) ∧
      (p.WF → (pruneLoop p l).WF) ∧
      (pruneLoop p l).commonDbrConfig = p.commonDbrConfig ∧
      (pruneLoop p l).accountDB = p.accountDB ∧ (pruneLoop p l).closing = p.closing := by
  induction l with
  | nil => intro p; simp [pruneLoop]
  | cons a rest ih =>
    intro p
    by_cases ha : a.active = true
    · simp only [pruneLoop, Account.Active, ha, Bool.not_true, Bool.false_eq_true, if_false]
      obtain ⟨h1, h2, h3⟩ := ih p
      refine ⟨?_, h2, h3⟩
      intro k
      rw [h1 k]
      simp [ha]
    · simp only [Bool.not_eq_true] at ha
      simp only [pruneLoop, Account.Active, ha, Bool.not_false, if_true]
      obtain ⟨h1, h2, h3⟩ := ih (p.deleteAccount a.id)
      refine ⟨?_, fun hp => h2 (WF_deleteAccount p a.id hp), h3⟩
      intro k
      rw [h1 k, Account_deleteAccount]
      by_cases hk : a.id = k
      · simp [hk, ha]
      · simp [hk]

theorem prune_Account (p : Common) (hp : p.WF) (k : Int) :
    (pruneLoop p p.Accounts).Account k = keepActive (p.Account k) := by
  rw [(pruneLoop_spec p.Accounts p).1 k]
  cases hk : p.Account k with
  | none =>
    simp only [keepActive]
    split
    · rfl
    · rfl
  | some a =>
    have hid := WF_Account p hp k a hk
    by_cases ha : a.active = true
    · simp only [keepActive, ha, if_true]
      rw [if_neg]
      rintro ⟨b, hb, hbk, hba⟩
      obtain ⟨e, he, rfl⟩ := List.mem_map.mp hb
      have := mapGet_of_mem p.accounts e.1 e.2 hp.1 he
      have h2 := hp.2 e he
      rw [h2] at hbk
      subst hbk
      change p.Account e.1 = some e.2 at this
      rw [hk] at this
      injection this with this
      rw [← this, ha] at hba
      exact Bool.noConfusion hba
    · simp only [Bool.not_eq_true] at ha
      simp only [keepActive, ha, Bool.false_eq_true, if_false]
      rw [if_pos]
      exact ⟨a, List.mem_map.mpr ⟨(k, a), mem_of_mapGet _ _ _ hk, rfl⟩, hid, ha⟩

theorem okRows_map_ok {α : Type} (rs : List α) :
    okRows (rs.map (Except.ok : α → Except Error α)) = rs := by
  induction rs with
  | nil => rfl
  | cons a rest ih => simp [okRows, ih]

theorem scanErr_map_ok {α : Type} (rs : List α) (e : Option Error) :
    scanErr (rs.map (Except.ok : α → Except Error α)) e = e := by
  induction rs with
  | nil => rfl
  | cons a rest ih => simp [scanErr, ih]

/-- A pass over rows delivered without error, as a composition of the loops. -/
theorem ReadAccounts_delivers (irows : List InstanceRow) (crows : List ClientRow)
    (p : Common) :
    p.ReadAccounts (delivers irows) (delivers crows) =
      match foldExec instanceBody irows (p, instanceVar p) with
      | .panic => .panic
      | .fuel => .fuel
      | .done (p1, _) =>
        match foldExec clientBody crows p1 with
        | .panic => .panic
        | .fuel => .fuel
        | .done p2 => .done (none, pruneLoop p2 p2.Accounts) := by
  unfold delivers
  rw [ReadAccounts_fresh]
  simp only [okRows_map_ok, scanErr_map_ok, ne_eq, not_true_eq_false, if_false]

/-- The effect of a successful pass on every roster entry, and what it preserves. -/
theorem pass_spec (irows : List InstanceRow) (crows : List ClientRow) (p q : Common)
    (e : Option Error) (hp : p.WF)
    (h : p.ReadAccounts (delivers irows) (delivers crows) = .done (e, q)) :
    e = none ∧
    (∀ k, q.Account k = passEntry p.commonDbrConfig.connectionUsername
      p.commonDbrConfig.connectionPassword irows crows k (p.Account k)) ∧
    q.WF ∧ q.commonDbrConfig = p.commonDbrConfig ∧ q.accountDB = p.accountDB ∧
    q.closing = p.closing := by
  rw [ReadAccounts_delivers] at h
  cases h1 : foldExec instanceBody irows (p, instanceVar p) with
  | panic => simp [h1] at h
  | fuel => simp [h1] at h
  | done s =>
    obtain ⟨p1, i1⟩ := s
    simp only [h1] at h
    obtain ⟨p2, h2⟩ := foldExec_client_total crows p1
    simp only [h2] at h
    injection h with h
    injection h with he hq
    subst hq
    have a1 := foldExec_instance irows p p1 _ i1 h1
    have w1 := foldExec_instance_WF irows p p1 _ i1 hp h1
    have a2 := foldExec_client crows p1 p2 h2
    have w2 := foldExec_client_WF crows p1 p2 w1 h2
    have a3 := pruneLoop_spec p2.Accounts p2
    refine ⟨he.symm, ?_, a3.2.1 w2, ?_, ?_, ?_⟩
    · intro k
      rw [prune_Account p2 w2 k, a2.1 k, a1.1 k]
      rfl
    · rw [a3.2.2.1, a2.2.1, a1.2.1]
    · rw [a3.2.2.2.1, a2.2.2.1, a1.2.2.1]
    · rw [a3.2.2.2.2, a2.2.2.2, a1.2.2.2]

/-- A pass over rows delivered without error returns unless a tag is empty,
and never exhausts the loop bound. -/
theorem pass_total (irows : List InstanceRow) (crows : List ClientRow) (p : Common)
    (h : ∀ r ∈ irows, r.tag ≠ some []) :
    ∃ q, p.ReadAccounts (delivers irows) (delivers crows) = .done (none, q) := by
  rw [ReadAccounts_delivers]
  obtain ⟨s, hs⟩ := foldExec_instance_total irows h (p, instanceVar p)
  obtain ⟨q, hq⟩ := foldExec_client_total crows s.1
  refine ⟨pruneLoop q q.Accounts, ?_⟩
  rw [hs]
  simp only [hq]




theorem lastMatch_none_of_any {α : Type} (P Q : α → Bool) (l : List α)
    (hq : ∀ a, P a = true → Q a = true) (h : l.any Q = false) : lastMatch P l = none := by
  induction l with
  | nil => rfl
  | cons a rest ih =>
    simp only [List.any_cons, Bool.or_eq_false_iff] at h
    have hpa : P a = false := by
      cases hp : P a
      · rfl
      · rw [hq a hp] at h; exact absurd h.1 (by simp)
    simp [lastMatch, ih h.2, hpa]

theorem clientStep_fold (crows : List ClientRow) (k : Int) :
    ∀ x, crows.foldl (clientStep k) x = clientEntry crows k x := by
  induction crows with
  | nil =>
    intro x
    cases x with
    | none => rfl
    | some a => simp [clientEntry, lastMatch]
  | cons r rest ih =>
    intro x
    rw [List.foldl_cons, ih]
    cases x with
    | none =>
      simp only [clientStep]
      split <;> rfl
    | some a =>
      by_cases hk : r.id = k
      · by_cases hc : a.config ≠ none ∧ a.ops ≠ none
        · simp only [clientStep, hk, if_true, hc, and_self, clientEntry, lastMatch,
            Account.SetActive, Account.setInfo, ne_eq, not_false_eq_true, decide_True]
          cases lastMatch (fun r => decide (r.id = k)) rest <;> simp [hc]
        · simp only [clientStep, hk, if_true, hc, if_false, clientEntry]
      · simp only [clientStep, hk, if_false, clientEntry, lastMatch, decide_False]
        cases lastMatch (fun r => decide (r.id = k)) rest <;> simp




theorem instanceStep_fold (cu cp : GoString) (irows : List InstanceRow) (k : Int) :
    ∀ x, irows.foldl (instanceStep cu cp k) x = instanceEntry cu cp irows k x := by
  induction irows with
  | nil => intro x; simp [instanceEntry]
  | cons r rest ih =>
    intro x
    rw [List.foldl_cons, ih]
    have hco : ¬ bytes "config" = bytes "ops" := by decide
    have hoc : ¬ bytes "ops" = bytes "config" := by decide
    by_cases hk : rowId r = some k
    · by_cases hany : rest.any (forId k) = true
      · cases h1 : lastMatch (forRole (bytes "config") k) rest <;>
          cases h2 : lastMatch (forRole (bytes "ops") k) rest <;>
          by_cases hc : r.handle = bytes "config" <;>
          by_cases ho : r.handle = bytes "ops" <;>
          simp [instanceStep, hk, hc, ho, instanceEntry, hany, forId, lastMatch, h1, h2,
            forRole, Account.setDbrConfig, Account.setDbrOps, hco, hoc, orElse]
      · simp only [Bool.not_eq_true] at hany
        have n1 := lastMatch_none_of_any (forRole (bytes "config") k) (forId k) rest
          (fun a h => by simp [forRole, forId] at h ⊢; exact h.1) hany
        have n2 := lastMatch_none_of_any (forRole (bytes "ops") k) (forId k) rest
          (fun a h => by simp [forRole, forId] at h ⊢; exact h.1) hany
        by_cases hc : r.handle = bytes "config" <;>
          by_cases ho : r.handle = bytes "ops" <;>
          simp [instanceStep, hk, hc, ho, instanceEntry, hany, forId, lastMatch, n1, n2,
            forRole, Account.setDbrConfig, Account.setDbrOps, hco, hoc, orElse]
    · cases h1 : lastMatch (forRole (bytes "config") k) rest <;>
        cases h2 : lastMatch (forRole (bytes "ops") k) rest <;>
        simp [instanceStep, hk, instanceEntry, forId, lastMatch, h1, h2, forRole]

theorem passEntry_eq (cu cp : GoString) (irows : List InstanceRow) (crows : List ClientRow)
    (k : Int) (x : Option Account) :
    passEntry cu cp irows crows k x
      = keepActive (clientEntry crows k (instanceEntry cu cp irows k x)) := by
  simp [passEntry, instanceStep_fold, clientStep_fold]




theorem passEntry_idem (cu cp : GoString) (irows : List InstanceRow) (crows : List ClientRow)
    (k : Int) (x : Option Account) :
    passEntry cu cp irows crows k (passEntry cu cp irows crows k x)
      = passEntry cu cp irows crows k x := by
  simp only [passEntry_eq, instanceEntry, clientEntry]
  cases hT : irows.any (forId k) <;>
    cases hC : lastMatch (forRole (bytes "config") k) irows <;>
    cases hO : lastMatch (forRole (bytes "ops") k) irows <;>
    cases hL : lastMatch (fun r => decide (r.id = k)) crows <;>
    cases x with
    | none => simp [keepActive, orElse, Account.new, Account.SetActive, Account.setInfo]
    | some a =>
      obtain ⟨id, active, name, key, db, dbErr, lock, config, ops⟩ := a
      cases active <;> cases config <;> cases ops <;>
        simp [keepActive, orElse, Account.new, Account.SetActive, Account.setInfo, hT, hC, hO, hL]



/-! ## The tag of an account -/


theorem digitsValue_append (l1 l2 : List Nat) :
    ∀ v, digitsValue (l1 ++ l2) v = (digitsValue l1 v).bind (digitsValue l2) := by
  induction l1 with
  | nil => intro v; simp [digitsValue]
  | cons c cs ih =>
    intro v
    simp only [List.cons_append, digitsValue]
    split
    · exact ih _
    · rfl

theorem decimalAux_acc (fuel : Nat) :
    ∀ n acc, decimalAux fuel n acc = decimalAux fuel n [] ++ acc := by
  induction fuel with
  | zero => intro n acc; simp [decimalAux]
  | succ f ih =>
    intro n acc
    simp only [decimalAux]
    split
    · simp
    · rw [ih (n / 10) ((48 + n % 10) :: acc), ih (n / 10) [48 + n % 10]]
      simp

theorem digitsValue_decimalAux (fuel : Nat) :
    ∀ n, n < fuel → digitsValue (decimalAux fuel n []) 0 = some n := by
  induction fuel with
  | zero => intro n h; omega
  | succ f ih =>
    intro n h
    simp only [decimalAux]
    split
    · rename_i h10
      simp only [digitsValue]
      rw [if_pos (by omega)]
      simp
    · rename_i h10
      rw [decimalAux_acc, digitsValue_append, ih (n / 10) (by omega)]
      simp only [Option.some_bind, digitsValue]
      rw [if_pos (by omega)]
      congr 1
      omega

theorem digitsValue_decimal (n : Nat) : digitsValue (decimal n) 0 = some n :=
  digitsValue_decimalAux (n + 1) n (by omega)

theorem decimal_cons (n : Nat) : ∃ c cs, decimal n = c :: cs ∧ 48 ≤ c := by
  have h := digitsValue_decimal n
  cases hd : decimal n with
  | nil =>
    rw [hd] at h
    unfold decimal decimalAux at hd
    split at hd
    · simp at hd
    · rw [decimalAux_acc] at hd
      simp at hd
  | cons c cs =>
    refine ⟨c, cs, rfl, ?_⟩
    rw [hd] at h
    simp only [digitsValue] at h
    by_contra hc
    rw [if_neg (by omega)] at h
    simp at h

/-- Parsing the numeral of a 64-bit integer gives the integer back. -/
theorem Atoi_Itoa (id : Int) (hlo : -2 ^ 63 ≤ id) (hhi : id < 2 ^ 63) :
    Atoi (Itoa id) = some id := by
  obtain ⟨c, cs, hd, hc⟩ := decimal_cons id.natAbs
  have hv := digitsValue_decimal id.natAbs
  by_cases hneg : id < 0
  · simp only [Itoa, hneg, if_true, Atoi, hd]
    rw [← hd, hv]
    simp only [Option.some_bind, intOfNeg]
    rw [if_pos (by omega)]
    congr 1
    omega
  · simp only [Itoa, hneg, if_false, Atoi, hd]
    rw [if_neg (by omega), if_neg (by omega), ← hd, hv]
    simp only [Option.some_bind, intOfNat]
    rw [if_pos (by omega)]
    congr 1
    omega

/-- The first loop assigns a row tagged `t<id>` to the account `id`, for a
non-zero 64-bit id. -/
theorem rowId_tagOf (r : InstanceRow) (id : Int) (h0 : id ≠ 0) (hlo : -2 ^ 63 ≤ id)
    (hhi : id < 2 ^ 63) (ht : r.tag = some (tagOf id)) : rowId r = some id := by
  simp [rowId, ht, tagOf, Atoi_Itoa id hlo hhi, h0]




theorem lastMatch_spec {α : Type} (P : α → Bool) (l : List α) (b : α)
    (h : lastMatch P l = some b) :
    P b = true ∧ ∃ l1 l2, l = l1 ++ b :: l2 ∧ ∀ x ∈ l2, P x = false := by
  induction l with
  | nil => simp [lastMatch] at h
  | cons a rest ih =>
    simp only [lastMatch] at h
    cases hr : lastMatch P rest with
    | some c =>
      simp only [hr] at h
      injection h with h
      subst h
      obtain ⟨hp, l1, l2, hl, hx⟩ := ih hr
      exact ⟨hp, a :: l1, l2, by simp [hl], hx⟩
    | none =>
      simp only [hr] at h
      by_cases hp : P a = true
      · simp only [hp, if_true] at h
        injection h with h
        subst h
        refine ⟨hp, [], rest, rfl, ?_⟩
        intro x hx
        by_contra hc
        simp only [Bool.not_eq_false] at hc
        have : ∀ (l : List α), lastMatch P l = none → ∀ y ∈ l, P y = true → False := by
          intro l
          induction l with
          | nil => intro _ y hy; simp at hy
          | cons z zs ihz =>
            intro hn y hy hpy
            simp only [lastMatch] at hn
            cases hzs : lastMatch P zs with
            | some w => simp [hzs] at hn
            | none =>
              simp only [hzs] at hn
              rcases List.mem_cons.mp hy with rfl | hy
              · simp [hpy] at hn
              · exact ihz hzs y hy hpy
        exact this rest hr x hx hc
      · simp [hp] at h

theorem lastMatch_of_mem {α : Type} (P : α → Bool) (l : List α) (a : α) (ha : a ∈ l)
    (hp : P a = true) : ∃ b, lastMatch P l = some b := by
  induction l with
  | nil => simp at ha
  | cons c rest ih =>
    simp only [lastMatch]
    cases hr : lastMatch P rest with
    | some w => exact ⟨w, rfl⟩
    | none =>
      rcases List.mem_cons.mp ha with rfl | ha
      · exact ⟨a, by simp [hp]⟩
      · obtain ⟨b, hb⟩ := ih ha
        rw [hr] at hb
        exact absurd hb (by simp)



/-! ## Claims about reconciliation -/


/-- C1 (as stated, refuted at id 0): on a fresh registry, with instances rows
tagged `t0` for both handles and a directory row with id 0, the pass succeeds and
`Account(0)` is nil: the first loop skips a tag whose number is zero. -/
theorem readAccounts_id_zero_absent :
    (∃ r ∈ [exRow "config" "t0" "t0cfg", exRow "ops" "t0" "t0ops"],
        r.tag = some (tagOf 0) ∧ r.handle = bytes "config") ∧
    (∃ r ∈ [exRow "config" "t0" "t0cfg", exRow "ops" "t0" "t0ops"],
        r.tag = some (tagOf 0) ∧ r.handle = bytes "ops") ∧
    (∃ c ∈ [(⟨0, bytes "Acme", bytes "key123"⟩ : ClientRow)], c.id = 0) ∧
    (Common.init exConf).ReadAccounts
        (delivers [exRow "config" "t0" "t0cfg", exRow "ops" "t0" "t0ops"])
        (delivers [⟨0, bytes "Acme", bytes "key123"⟩])
      = .done (none, Common.init exConf) ∧
    (Common.init exConf).Account 0 = none := by
  decide

/-- C1 (amended): for every registry whose roster stores each account under its
own id, every non-zero id of a 64-bit `int` and every successful `ReadAccounts`
pass: if the instances scan contains a row tagged `t<id>` with handle `config`
and one with handle `ops`, and the directory scan contains a row with that id,
then afterwards `Account(id)` is present and active, its name and client key are
those of the last directory row with that id, and `QueryPrep` substitutes the
database name of the last `config` row (and of the last `ops` row) that the
pass assigned to that id. -/
theorem readAccounts_activates (p q : Common) (irows : List InstanceRow)
    (crows : List ClientRow) (id : Int)
    (hp : p.WF) (h0 : id ≠ 0) (hlo : -2 ^ 63 ≤ id) (hhi : id < 2 ^ 63)
    (hpass : p.ReadAccounts (delivers irows) (delivers crows) = .done (none, q))
    (hc : ∃ r ∈ irows, r.tag = some (tagOf id) ∧ r.handle = bytes "config")
    (ho : ∃ r ∈ irows, r.tag = some (tagOf id) ∧ r.handle = bytes "ops")
    (hd : ∃ c ∈ crows, c.id = id) :
    ∃ a c o d, q.Account id = some a ∧ a.Active = true ∧
      lastMatch (fun r => decide (r.id = id)) crows = some d ∧
      a.Name = d.name ∧ a.ClientKey = d.clientkey ∧
      lastMatch (forRole (bytes "config") id) irows = some c ∧
      lastMatch (forRole (bytes "ops") id) irows = some o ∧
      ∀ query, a.QueryPrep query =
        .done (Replace (Replace query (bytes "\x7bconfig\x7d") c.dbname)
          (bytes "\x7bops\x7d") o.dbname) := by
  obtain ⟨rc, hrc, hrct, hrch⟩ := hc
  obtain ⟨ro, hro, hrot, hroh⟩ := ho
  obtain ⟨rd, hrd, hrdi⟩ := hd
  have ic := rowId_tagOf rc id h0 hlo hhi hrct
  have io := rowId_tagOf ro id h0 hlo hhi hrot
  obtain ⟨c, hC⟩ := lastMatch_of_mem (forRole (bytes "config") id) irows rc hrc
    (by simp [forRole, ic, hrch])
  obtain ⟨o, hO⟩ := lastMatch_of_mem (forRole (bytes "ops") id) irows ro hro
    (by simp [forRole, io, hroh])
  obtain ⟨d, hD⟩ := lastMatch_of_mem (fun r => decide (r.id = id)) crows rd hrd
    (by simp [hrdi])
  have hT : irows.any (forId id) = true :=
    List.any_eq_true.mpr ⟨rc, hrc, by simp [forId, ic]⟩
  have hq := (pass_spec irows crows p q none hp hpass).2.1 id
  rw [passEntry_eq] at hq
  simp only [instanceEntry, hT, if_true, hC, hO, Option.map_some', orElse, clientEntry,
    ne_eq, not_false_eq_true, and_self, hD, keepActive, Account.SetActive,
    Account.setInfo, reduceCtorEq] at hq
  exact ⟨_, c, o, d, hq, rfl, hD, rfl, rfl, hC, hO, fun query => rfl⟩

/-- C1, the end-to-end scenario: tag `t7`, database names `t7cfg` and `t7ops`,
directory row `(7, "Acme", "key123")`. -/
theorem readAccounts_activates_witness :
    accountAfter ((Common.init exConf).ReadAccounts (delivers exInstances7)
        (delivers exDirectory7)) 7 = some exAccount7 ∧
    exAccount7.QueryPrep (bytes "USE \x7bconfig\x7d") = .done (bytes "USE t7cfg") ∧
    ∃ a c o d, exRegistry7.Account 7 = some a ∧ a.Active = true ∧
      lastMatch (fun r => decide (r.id = 7)) exDirectory7 = some d ∧
      a.Name = d.name ∧ a.ClientKey = d.clientkey ∧
      lastMatch (forRole (bytes "config") 7) exInstances7 = some c ∧
      lastMatch (forRole (bytes "ops") 7) exInstances7 = some o ∧
      ∀ query, a.QueryPrep query =
        .done (Replace (Replace query (bytes "\x7bconfig\x7d") c.dbname)
          (bytes "\x7bops\x7d") o.dbname) :=
  ⟨by decide, by decide,
    readAccounts_activates (Common.init exConf) exRegistry7 exInstances7 exDirectory7 7
      (by decide) (by decide) (by decide) (by decide) (by decide) (by decide) (by decide)
      (by decide)⟩




/-- C2 (as stated, refuted): after the end-to-end scenario has made account 7
present and active, a second successful pass whose directory scan is empty
(with the same instances rows, or with none) leaves `Account(7)` present and
active, not nil. -/
theorem readAccounts_keeps_unlisted_account :
    (Common.init exConf).ReadAccounts (delivers exInstances7) (delivers exDirectory7)
      = .done (none, exRegistry7) ∧
    exRegistry7.Account 7 = some exAccount7 ∧ exAccount7.Active = true ∧
    (∀ c ∈ ([] : List ClientRow), c.id ≠ 7) ∧
    exRegistry7.ReadAccounts (delivers exInstances7) (delivers [])
      = .done (none, exRegistry7) ∧
    exRegistry7.ReadAccounts (delivers []) (delivers [])
      = .done (none, exRegistry7) ∧
    exRegistry7.Account 7 ≠ none := by
  decide

/-- C2 (amended): for every registry whose roster stores each account under its
own id and every id: if `Account(id)` is present and active after one successful
pass, and a second pass then succeeds whose directory scan contains no row with
that id, then after the second pass `Account(id)` is still present and active,
with the name and client key it had.  No statement of the program clears the
`active` flag, and the pruning loop removes only accounts whose flag is
false. -/
theorem readAccounts_active_is_sticky (p q1 q2 : Common)
    (irows1 irows2 : List InstanceRow) (crows1 crows2 : List ClientRow) (id : Int)
    (a : Account) (hp : p.WF)
    (h1 : p.ReadAccounts (delivers irows1) (delivers crows1) = .done (none, q1))
    (ha : q1.Account id = some a) (hact : a.Active = true)
    (h2 : q1.ReadAccounts (delivers irows2) (delivers crows2) = .done (none, q2))
    (hno : ∀ c ∈ crows2, c.id ≠ id) :
    ∃ a2, q2.Account id = some a2 ∧ a2.Active = true ∧ a2.Name = a.Name ∧
      a2.ClientKey = a.ClientKey := by
  have w1 := (pass_spec irows1 crows1 p q1 none hp h1).2.2.1
  have hq := (pass_spec irows2 crows2 q1 q2 none w1 h2).2.1 id
  have hL : lastMatch (fun r => decide (r.id = id)) crows2 = none := by
    apply lastMatch_none_of_any (fun r : ClientRow => decide (r.id = id))
      (fun r : ClientRow => decide (r.id = id)) crows2 (fun _ h => h)
    rw [Bool.eq_false_iff]
    intro hany
    obtain ⟨c, hc, hcid⟩ := List.any_eq_true.mp hany
    exact hno c hc (by simpa using hcid)
  rw [passEntry_eq, ha] at hq
  simp only [Account.Active] at hact
  simp only [instanceEntry, clientEntry, hL, Option.getD_some] at hq
  by_cases hT : irows2.any (forId id) = true
  · simp only [hT, if_true, ite_self, keepActive, hact] at hq
    exact ⟨_, hq, rfl, rfl, rfl⟩
  · simp only [hT, if_false, ite_self, keepActive, hact, if_true, Bool.false_eq_true] at hq
    exact ⟨_, hq, hact, rfl, rfl⟩

/-- C2, on the end-to-end scenario followed by a pass with an empty directory. -/
theorem readAccounts_active_is_sticky_witness :
    ∃ a2, exRegistry7.Account 7 = some a2 ∧ a2.Active = true ∧
      a2.Name = exAccount7.Name ∧ a2.ClientKey = exAccount7.ClientKey :=
  readAccounts_active_is_sticky (Common.init exConf) exRegistry7 exRegistry7
    exInstances7 exInstances7 exDirectory7 [] 7 exAccount7
    (by decide) (by decide) (by decide) (by decide) (by decide) (by decide)

/-- C3 (as stated, refuted at id 9): on a fresh registry, with a `config` row
tagged `t9`, no `ops` row and a directory row with id 9, the pass succeeds and
`Account(9)` is nil: the account was created but not activated, and pruned. -/
theorem readAccounts_config_only_absent :
    (∃ r ∈ [exRow "config" "t9" "t9cfg"],
        r.tag = some (tagOf 9) ∧ r.handle = bytes "config") ∧
    (∀ r ∈ [exRow "config" "t9" "t9cfg"],
        ¬ (r.tag = some (tagOf 9) ∧ r.handle = bytes "ops")) ∧
    (∃ c ∈ [(⟨9, bytes "Acme", bytes "key123"⟩ : ClientRow)], c.id = 9) ∧
    accountAfter ((Common.init exConf).ReadAccounts (delivers [exRow "config" "t9" "t9cfg"])
        (delivers [⟨9, bytes "Acme", bytes "key123"⟩])) 9 = none ∧
    (Common.init exConf).ReadAccounts (delivers [exRow "config" "t9" "t9cfg"])
        (delivers [⟨9, bytes "Acme", bytes "key123"⟩])
      = .done (none, Common.init exConf) := by
  decide

/-- C3 (amended): for every id: when no instances row that the pass assigns to
that id has handle `ops` (as when the scan has only a `config` row tagged
`t<id>`; whether or not the directory scan has a row for that id), then after a
successful pass on a fresh registry `Account(id)` is nil (the account lacks its
`ops` descriptor, is not activated and is pruned at the end of the pass), and
after a second pass over the same data `Account(id)` is still nil. -/
theorem readAccounts_config_only_pruned (p q1 q2 : Common) (irows : List InstanceRow)
    (crows : List ClientRow) (id : Int) (hfresh : p.accounts = [])
    (hno : ∀ r ∈ irows, rowId r = some id → r.handle ≠ bytes "ops")
    (h1 : p.ReadAccounts (delivers irows) (delivers crows) = .done (none, q1))
    (h2 : q1.ReadAccounts (delivers irows) (delivers crows) = .done (none, q2)) :
    q1.Account id = none ∧ q2.Account id = none := by
  have hp : p.WF := by simp [Common.WF, hfresh]
  have s1 := pass_spec irows crows p q1 none hp h1
  have s2 := pass_spec irows crows q1 q2 none s1.2.2.1 h2
  have hO : lastMatch (forRole (bytes "ops") id) irows = none := by
    cases hl : lastMatch (forRole (bytes "ops") id) irows with
    | none => rfl
    | some o =>
      obtain ⟨ho, l1, l2, hl1, -⟩ := lastMatch_spec _ _ _ hl
      simp only [forRole, Bool.and_eq_true, decide_eq_true_eq] at ho
      exact absurd ho.2 (hno o (by rw [hl1]; simp) ho.1)
  have key : ∀ cu cp, passEntry cu cp irows crows id none = none := by
    intro cu cp
    rw [passEntry_eq]
    simp only [instanceEntry, hO, Option.map_none', orElse, Option.getD_none, Account.new,
      clientEntry, keepActive]
    cases irows.any (forId id) <;> simp
  have e1 : q1.Account id = none := by
    rw [s1.2.1 id]
    have : p.Account id = none := by simp [Common.Account, hfresh, mapGet]
    rw [this]
    exact key _ _
  refine ⟨e1, ?_⟩
  rw [s2.2.1 id, e1]
  exact key _ _

/-- C3, on id 9. -/
theorem readAccounts_config_only_pruned_witness :
    (Common.init exConf).Account 9 = none ∧ (Common.init exConf).Account 9 = none :=
  readAccounts_config_only_pruned (Common.init exConf) (Common.init exConf)
    (Common.init exConf) [exRow "config" "t9" "t9cfg"] [⟨9, bytes "Acme", bytes "key123"⟩] 9
    (by decide)
    (by intro r hr; simp only [List.mem_singleton] at hr; subst hr; decide)
    (by decide) (by decide)




theorem foldExec_instance_tags (rows : List InstanceRow) :
    ∀ (s t : Common × DbrInstance), foldExec instanceBody rows s = .done t →
      ∀ r ∈ rows, r.tag ≠ some [] := by
  induction rows with
  | nil => intro s t _ r hr; simp at hr
  | cons a rest ih =>
    intro s t h r hr
    simp only [foldExec] at h
    cases hb : instanceBody s a with
    | panic => simp [hb] at h
    | fuel => simp [hb] at h
    | done s' =>
      simp only [hb] at h
      rcases List.mem_cons.mp hr with rfl | hr
      · intro ht
        rw [show s = (s.1, s.2) from rfl, instanceBody_panic s.1 s.2 r ht] at hb
        exact Exec.noConfusion hb
      · exact ih s' t h r hr

/-- C5: `ReadAccounts` is idempotent on unchanged data.  For every registry whose
roster stores each account under its own id and all instances and directory
rows: when a pass over them succeeds, a second pass over the same rows succeeds
as well and leaves the same roster: `Account(id)` is the same for every id
(present or not, and equal in every field: active flag, name, client key,
`config` and `ops` descriptors). -/
theorem readAccounts_idempotent (p q1 : Common) (irows : List InstanceRow)
    (crows : List ClientRow) (hp : p.WF)
    (h1 : p.ReadAccounts (delivers irows) (delivers crows) = .done (none, q1)) :
    ∃ q2, q1.ReadAccounts (delivers irows) (delivers crows) = .done (none, q2) ∧
      ∀ id, q2.Account id = q1.Account id := by
  have htags : ∀ r ∈ irows, r.tag ≠ some [] := by
    rw [ReadAccounts_delivers] at h1
    cases hf : foldExec instanceBody irows (p, instanceVar p) with
    | panic => simp [hf] at h1
    | fuel => simp [hf] at h1
    | done s => exact foldExec_instance_tags irows _ s hf
  obtain ⟨q2, h2⟩ := pass_total irows crows q1 htags
  have s1 := pass_spec irows crows p q1 none hp h1
  have s2 := pass_spec irows crows q1 q2 none s1.2.2.1 h2
  refine ⟨q2, h2, ?_⟩
  intro id
  rw [s2.2.1 id, s1.2.1 id, s1.2.2.2.1]
  exact passEntry_idem _ _ _ _ _ _

/-- C5, on the end-to-end scenario. -/
theorem readAccounts_idempotent_witness :
    ∃ q2, exRegistry7.ReadAccounts (delivers exInstances7) (delivers exDirectory7)
        = .done (none, q2) ∧
      ∀ id, q2.Account id = exRegistry7.Account id :=
  readAccounts_idempotent (Common.init exConf) exRegistry7 exInstances7 exDirectory7
    (by decide) (by decide)

theorem instanceBody_congr (p : Common) (i j : DbrInstance) (r : InstanceRow)
    (h1 : i.connectionUsername = j.connectionUsername)
    (h2 : i.connectionPassword = j.connectionPassword) :
    instanceBody (p, i) r = instanceBody (p, j) r := by
  unfold instanceBody
  simp only [scanInstance_eq, h1, h2]

theorem foldExec_dropVar (rows : List InstanceRow) (p : Common) (i j : DbrInstance)
    (h1 : i.connectionUsername = j.connectionUsername)
    (h2 : i.connectionPassword = j.connectionPassword) :
    dropVar (foldExec instanceBody rows (p, i)) = dropVar (foldExec instanceBody rows (p, j)) := by
  cases rows with
  | nil => rfl
  | cons r rest => simp only [foldExec, instanceBody_congr p i j r h1 h2]

theorem instanceBody_skip (p : Common) (i : DbrInstance) (r : InstanceRow) (c : Nat)
    (rest : List Nat) (ht : r.tag = some (c :: rest))
    (hbad : Atoi rest = none ∨ Atoi rest = some 0) :
    instanceBody (p, i) r = .done (p, scanInstance i r) := by
  unfold instanceBody
  have : (scanInstance i r).tag = some (c :: rest) := ht
  rcases hbad with h | h <;> simp [this, h]

theorem skip_fold (r : InstanceRow) (c : Nat) (rest : List Nat)
    (ht : r.tag = some (c :: rest)) (hbad : Atoi rest = none ∨ Atoi rest = some 0)
    (post : List (Except Error InstanceRow)) (pre : List (Except Error InstanceRow)) :
    ∀ (s : Common × DbrInstance),
      dropVar (foldExec instanceBody (okRows (pre ++ .ok r :: post)) s)
        = dropVar (foldExec instanceBody (okRows (pre ++ post)) s) := by
  induction pre with
  | nil =>
    intro s
    obtain ⟨p, i⟩ := s
    simp only [List.nil_append, okRows, foldExec, instanceBody_skip p i r c rest ht hbad]
    exact foldExec_dropVar _ p _ _ rfl rfl
  | cons x pre ih =>
    intro s
    cases x with
    | error e => rfl
    | ok a =>
      simp only [List.cons_append, okRows, foldExec]
      cases instanceBody s a with
      | panic => rfl
      | fuel => rfl
      | done s' => exact ih s'

theorem scanErr_skip {α : Type} (r : α) (post : List (Except Error α)) (e : Option Error)
    (pre : List (Except Error α)) :
    scanErr (pre ++ .ok r :: post) e = scanErr (pre ++ post) e := by
  induction pre with
  | nil => rfl
  | cons x pre ih =>
    cases x with
    | error _ => rfl
    | ok a => simpa [scanErr] using ih

theorem ReadAccounts_congr (c1 c2 : SqlRows InstanceRow)
    (cq : Except Error (SqlRows ClientRow)) (p : Common) (err : Option Error)
    (f1 f2 : Exec (Common × DbrInstance))
    (h1 : loopResult (scanLoop instanceBody (c1.pending.length + 1) ⟨some c1, none⟩
      (p, instanceVar p)) = withErr f1 err)
    (h2 : loopResult (scanLoop instanceBody (c2.pending.length + 1) ⟨some c2, none⟩
      (p, instanceVar p)) = withErr f2 err)
    (hf : dropVar f1 = dropVar f2) :
    p.ReadAccounts (.ok c1) cq = p.ReadAccounts (.ok c2) cq := by
  unfold Common.ReadAccounts
  simp only [QueryContext, Rows.bound]
  change (match scanLoop instanceBody (c1.pending.length + 1) _ (p, instanceVar p) with
    | .panic => _ | .fuel => _ | .done (irows, (p, _)) => _) =
    (match scanLoop instanceBody (c2.pending.length + 1) _ (p, instanceVar p) with
    | .panic => _ | .fuel => _ | .done (irows, (p, _)) => _)
  cases hl1 : scanLoop instanceBody (c1.pending.length + 1) ⟨some c1, none⟩
      (p, instanceVar p) with
  | panic =>
    rw [hl1] at h1
    have e1 := withErr_of_panic _ _ h1
    rw [e1] at hf
    cases hl2 : scanLoop instanceBody (c2.pending.length + 1) ⟨some c2, none⟩
        (p, instanceVar p) with
    | panic => rfl
    | fuel => rw [hl2] at h2; rw [withErr_of_fuel _ _ h2] at hf; cases hf
    | done rs =>
      obtain ⟨r, s⟩ := rs
      rw [hl2] at h2; rw [(withErr_of_done _ _ _ _ h2).1] at hf; cases hf
  | fuel =>
    rw [hl1] at h1
    have e1 := withErr_of_fuel _ _ h1
    rw [e1] at hf
    cases hl2 : scanLoop instanceBody (c2.pending.length + 1) ⟨some c2, none⟩
        (p, instanceVar p) with
    | fuel => rfl
    | panic => rw [hl2] at h2; rw [withErr_of_panic _ _ h2] at hf; cases hf
    | done rs =>
      obtain ⟨r, s⟩ := rs
      rw [hl2] at h2; rw [(withErr_of_done _ _ _ _ h2).1] at hf; cases hf
  | done rs1 =>
    obtain ⟨r1, p1, i1⟩ := rs1
    rw [hl1] at h1
    have e1 := withErr_of_done _ _ _ _ h1
    rw [e1.1] at hf
    cases hl2 : scanLoop instanceBody (c2.pending.length + 1) ⟨some c2, none⟩
        (p, instanceVar p) with
    | panic => rw [hl2] at h2; rw [withErr_of_panic _ _ h2] at hf; cases hf
    | fuel => rw [hl2] at h2; rw [withErr_of_fuel _ _ h2] at hf; cases hf
    | done rs2 =>
      obtain ⟨r2, p2, i2⟩ := rs2
      rw [hl2] at h2
      have e2 := withErr_of_done _ _ _ _ h2
      rw [e2.1] at hf
      simp only [dropVar] at hf
      injection hf with hf
      subst hf
      simp only [e1.2, e2.2]




/-- C4 (as stated, refuted): the tags `x7` and `t-7` are not the letter `t`
followed by the decimal digits of a positive integer, yet the pass does not skip
rows carrying them: on a fresh registry it creates accounts 7 and -7 from such
rows and attaches their descriptors. -/
theorem readAccounts_accepts_other_tags :
    ¬ isTenantTag (bytes "x7") ∧ ¬ isTenantTag (bytes "t-7") ∧
    accountAfter ((Common.init exConf).ReadAccounts
        (delivers [exRow "config" "x7" "t7cfg", exRow "ops" "x7" "t7ops"])
        (delivers exDirectory7)) 7 =
      some { exAccount7 with
        config := some (mkInstance (bytes "boot") (bytes "secret") (exRow "config" "x7" "t7cfg")),
        ops := some (mkInstance (bytes "boot") (bytes "secret") (exRow "ops" "x7" "t7ops")) } ∧
    (accountAfter ((Common.init exConf).ReadAccounts
        (delivers [exRow "config" "t-7" "t7cfg", exRow "ops" "t-7" "t7ops"])
        (delivers [⟨-7, bytes "Acme", bytes "key123"⟩])) (-7)).isSome = true := by
  refine ⟨?_, ?_, by decide, by decide⟩
  · rintro ⟨n, -, h⟩
    simp [bytes] at h
  · rintro ⟨n, -, h⟩
    obtain ⟨c, cs, hd, hc⟩ := decimal_cons n
    rw [hd] at h
    simp [bytes] at h
    omega

/-- C4 (amended): for every instances row whose tag is present and non-empty and
whose text after the first byte `strconv.Atoi` does not parse as a non-zero
integer (as for `t`, `t0`, `tx` or `t1.5`), `ReadAccounts` skips the row
silently: the loop body returns without a fault and leaves the registry
unchanged, so no account is created and no descriptor attached, and the whole
pass has the outcome it has without that row, wherever the row stands in the
scan.  (The first byte of the tag is not inspected and a negative number is
accepted as an id.) -/
theorem readAccounts_skips_row (r : InstanceRow) (c : Nat) (rest : List Nat)
    (ht : r.tag = some (c :: rest)) (hbad : Atoi rest = none ∨ Atoi rest = some 0)
    (pre post : List (Except Error InstanceRow)) (ie : Option Error)
    (cq : Except Error (SqlRows ClientRow)) (p : Common) :
    (∀ i, instanceBody (p, i) r = .done (p, scanInstance i r)) ∧
    p.ReadAccounts (.ok (SqlRows.fresh (pre ++ .ok r :: post) ie)) cq
      = p.ReadAccounts (.ok (SqlRows.fresh (pre ++ post) ie)) cq := by
  refine ⟨fun i => instanceBody_skip p i r c rest ht hbad, ?_⟩
  have h1 := scanLoop_fresh instanceBody (pre ++ .ok r :: post)
    ((pre ++ .ok r :: post).length + 1) (SqlRows.fresh (pre ++ .ok r :: post) ie) none
    (p, instanceVar p) rfl rfl (by omega)
  have h2 := scanLoop_fresh instanceBody (pre ++ post)
    ((pre ++ post).length + 1) (SqlRows.fresh (pre ++ post) ie) none
    (p, instanceVar p) rfl rfl (by omega)
  have he : (SqlRows.fresh (pre ++ .ok r :: post) ie).endErr = ie := rfl
  have he2 : (SqlRows.fresh (pre ++ post) ie).endErr = ie := rfl
  rw [he, scanErr_skip] at h1
  rw [he2] at h2
  exact ReadAccounts_congr _ _ cq p _ _ _ h1 h2 (skip_fold r c rest ht hbad post pre _)

/-- C4, on a row tagged `t0` between the two rows of the end-to-end scenario. -/
theorem readAccounts_skips_row_witness :
    (∀ i, instanceBody (Common.init exConf, i) (exRow "config" "t0" "zero")
        = .done (Common.init exConf, scanInstance i (exRow "config" "t0" "zero"))) ∧
    (Common.init exConf).ReadAccounts
        (.ok (SqlRows.fresh ([.ok (exRow "config" "t7" "t7cfg")]
          ++ .ok (exRow "config" "t0" "zero") :: [.ok (exRow "ops" "t7" "t7ops")]) none))
        (delivers exDirectory7)
      = (Common.init exConf).ReadAccounts
        (.ok (SqlRows.fresh ([.ok (exRow "config" "t7" "t7cfg")]
          ++ [.ok (exRow "ops" "t7" "t7ops")]) none))
        (delivers exDirectory7) :=
  readAccounts_skips_row (exRow "config" "t0" "zero") 116 (bytes "0") (by decide)
    (by decide) _ _ none _ _



/-! ## The connection cache and the closing flag -/


theorem scanLoop_inv {α σ : Type} (body : σ → α → Exec σ) (I : σ → Prop)
    (hbody : ∀ s a s', I s → body s a = .done s' → I s') :
    ∀ (n : Nat) (r r' : Rows α) (s s' : σ), I s →
      scanLoop body n r s = .done (r', s') → I s' := by
  intro n
  induction n with
  | zero => intro r r' s s' _ h; simp [scanLoop] at h
  | succ n ih =>
    intro r r' s s' hs h
    simp only [scanLoop] at h
    split at h
    · rename_i a r1 hscan
      cases hb : body s a with
      | panic => simp [hb] at h
      | fuel => simp [hb] at h
      | done s1 =>
        simp only [hb] at h
        exact ih r1 r' s1 s' (hbody s a s1 hs hb) h
    · injection h with h
      injection h with h1 h2
      subst h2
      exact hs

/-- `ReadAccounts` never writes the connection cache, the closing flag or the
bootstrap descriptor, whatever the queries return. -/
theorem ReadAccounts_pool (iq : Except Error (SqlRows InstanceRow))
    (cq : Except Error (SqlRows ClientRow)) (p q : Common) (e : Option Error)
    (h : p.ReadAccounts iq cq = .done (e, q)) :
    q.accountDB = p.accountDB ∧ q.closing = p.closing ∧
      q.commonDbrConfig = p.commonDbrConfig := by
  have inv1 := scanLoop_inv instanceBody
    (fun s => s.1.accountDB = p.accountDB ∧ s.1.closing = p.closing ∧
      s.1.commonDbrConfig = p.commonDbrConfig)
    (by
      intro s a s' hs hb
      have := instanceBody_spec s.1 s'.1 s.2 s'.2 a hb
      exact ⟨this.2.2.1.trans hs.1, this.2.2.2.trans hs.2.1, this.2.1.trans hs.2.2⟩)
  have inv2 := scanLoop_inv clientBody
    (fun s => s.accountDB = p.accountDB ∧ s.closing = p.closing ∧
      s.commonDbrConfig = p.commonDbrConfig)
    (by
      intro s a s' hs hb
      have := clientBody_spec s s' a hb
      exact ⟨this.2.2.1.trans hs.1, this.2.2.2.trans hs.2.1, this.2.1.trans hs.2.2⟩)
  unfold Common.ReadAccounts at h
  simp only at h
  split at h
  · exact Exec.noConfusion h
  · exact Exec.noConfusion h
  · rename_i r1 p1 i1 hl1
    have k1 := inv1 _ _ r1 _ (p1, i1) ⟨rfl, rfl, rfl⟩ hl1
    split at h
    · injection h with h
      injection h with h1 h2
      subst h2
      exact k1
    · split at h
      · exact Exec.noConfusion h
      · exact Exec.noConfusion h
      · rename_i r2 p2 hl2
        have k2 := inv2 _ _ r2 _ p2 k1 hl2
        split at h
        · injection h with h
          injection h with h1 h2
          subst h2
          exact k2
        · injection h with h
          injection h with h1 h2
          subst h2
          have k3 := pruneLoop_spec p2.Accounts p2
          exact ⟨k3.2.2.2.1.trans k2.1, k3.2.2.2.2.trans k2.2.1, k3.2.2.1.trans k2.2.2⟩

theorem OpenInstance_closing (sqlOpen : SqlOpen) (p : Common) (i : DbrInstance) :
    (p.OpenInstance sqlOpen i).2.closing = p.closing := by
  unfold Common.OpenInstance
  repeat' split
  all_goals rfl

theorem OpenInstance_cache (sqlOpen : SqlOpen) (p : Common) (i : DbrInstance)
    (dsn : GoString) (h : Handle) (hc : mapGet p.accountDB dsn = some h) :
    mapGet (p.OpenInstance sqlOpen i).2.accountDB dsn = some h := by
  unfold Common.OpenInstance
  cases dsnOf i with
  | none => exact hc
  | some dsn1 =>
    simp only
    by_cases hcl : p.closing = true
    · simp only [hcl, if_true]; exact hc
    · simp only [hcl, if_false]
      cases hm : mapGet p.accountDB dsn1 with
      | some db => exact hc
      | none =>
        cases sqlOpen (bytes "mysql") dsn1 with
        | error err => exact hc
        | ok db =>
          by_cases hd : dsn1 = dsn
          · subst hd; rw [hc] at hm; exact Option.noConfusion hm
          · show mapGet (mapSet p.accountDB dsn1 db) dsn = some h
            rw [mapGet_mapSet, if_neg hd]
            exact hc

theorem Account_DB_pool (sqlOpen : SqlOpen) (a : Account) (p : Common) :
    (a.DB sqlOpen p).2.2 = p ∨
      ∃ c, (a.DB sqlOpen p).2.2 = (p.OpenInstance sqlOpen c).2 := by
  unfold Account.DB
  split
  · exact Or.inl rfl
  · split
    · exact Or.inl rfl
    · rename_i c _
      exact Or.inr ⟨c, rfl⟩

/-- No operation clears the closing flag, and none removes or replaces an entry
of the connection cache. -/
theorem Op_apply_pool (op : Op) (p q : Common) (h : op.apply p = some q) :
    (p.closing = true → q.closing = true) ∧
      ∀ dsn hd, mapGet p.accountDB dsn = some hd → mapGet q.accountDB dsn = some hd := by
  cases op with
  | openInstance sqlOpen i =>
    simp only [Op.apply, Option.some.injEq] at h
    subst h
    exact ⟨fun hc => by rw [OpenInstance_closing]; exact hc,
      fun dsn hd hg => OpenInstance_cache sqlOpen p i dsn hd hg⟩
  | close dbClose order =>
    simp only [Op.apply, Option.some.injEq] at h
    subst h
    exact ⟨fun _ => rfl, fun dsn hd hg => hg⟩
  | readAccounts iq cq =>
    simp only [Op.apply] at h
    split at h
    · rename_i e q1 hr
      injection h with h
      subst h
      have := ReadAccounts_pool iq cq p q1 e hr
      exact ⟨fun hc => by rw [this.2.1]; exact hc, fun dsn hd hg => by rw [this.1]; exact hg⟩
    · exact Option.noConfusion h
  | accountDB sqlOpen id =>
    simp only [Op.apply] at h
    split at h
    · injection h with h
      subst h
      exact ⟨fun hc => hc, fun dsn hd hg => hg⟩
    · rename_i a _
      injection h with h
      subst h
      rcases Account_DB_pool sqlOpen a p with hp | ⟨c, hp⟩
      · simp only [Common.setAccount, hp]
        exact ⟨fun hc => hc, fun dsn hd hg => hg⟩
      · simp only [Common.setAccount, hp]
        exact ⟨fun hc => by rw [OpenInstance_closing]; exact hc,
          fun dsn hd hg => OpenInstance_cache sqlOpen p c dsn hd hg⟩
  | setActive id active =>
    simp only [Op.apply] at h
    split at h
    · injection h with h
      subst h
      exact ⟨fun hc => hc, fun dsn hd hg => hg⟩
    · injection h with h
      subst h
      exact ⟨fun hc => hc, fun dsn hd hg => hg⟩

theorem runOps_pool (ops : List Op) :
    ∀ (p q : Common), runOps ops p = some q →
      (p.closing = true → q.closing = true) ∧
        ∀ dsn hd, mapGet p.accountDB dsn = some hd → mapGet q.accountDB dsn = some hd := by
  induction ops with
  | nil =>
    intro p q h
    simp only [runOps, Option.some.injEq] at h
    subst h
    exact ⟨fun hc => hc, fun _ _ h => h⟩
  | cons op rest ih =>
    intro p q h
    simp only [runOps] at h
    cases ho : op.apply p with
    | none => simp [ho] at h
    | some p1 =>
      simp only [ho, Option.some_bind] at h
      have a1 := Op_apply_pool op p p1 ho
      have a2 := ih p1 q h
      exact ⟨fun hc => a2.1 (a1.1 hc), fun dsn hd hg => a2.2 dsn hd (a1.2 dsn hd hg)⟩




theorem dsnOf_congr (i1 i2 : DbrInstance) (hm1 : i1.module = bytes "Mysql")
    (hm2 : i2.module = bytes "Mysql")
    (hu : i1.connectionUsername = i2.connectionUsername)
    (hpw : i1.connectionPassword = i2.connectionPassword) (hh : i1.host = i2.host) :
    ∃ dsn, dsnOf i1 = some dsn ∧ dsnOf i2 = some dsn := by
  unfold dsnOf
  rw [hm1, hm2, hu, hpw, hh]
  simp only [if_true]
  split
  · exact ⟨_, rfl, rfl⟩
  · exact ⟨_, rfl, rfl⟩

theorem OpenInstance_success (sqlOpen : SqlOpen) (p : Common) (i : DbrInstance)
    (dsn : GoString) (h : Handle) (hd : dsnOf i = some dsn)
    (hr : (p.OpenInstance sqlOpen i).1 = (some h, none)) :
    mapGet (p.OpenInstance sqlOpen i).2.accountDB dsn = some h := by
  unfold Common.OpenInstance at hr ⊢
  simp only [hd] at hr ⊢
  by_cases hcl : p.closing = true
  · simp [hcl] at hr
  · simp only [hcl, if_false] at hr ⊢
    cases hm : mapGet p.accountDB dsn with
    | some db =>
      simp only [hm] at hr ⊢
      injection hr with h1 h2
      injection h1 with h1
      rw [← h1]; exact hm
    | none =>
      simp only [hm] at hr ⊢
      cases ho : sqlOpen (bytes "mysql") dsn with
      | error err => simp [ho] at hr
      | ok db =>
        simp only [ho] at hr ⊢
        injection hr with h1 h2
        injection h1 with h1
        show mapGet (mapSet p.accountDB dsn db) dsn = some h
        rw [mapGet_mapSet, if_pos rfl, h1]

theorem OpenInstance_cached (sqlOpen : SqlOpen) (p : Common) (i : DbrInstance)
    (dsn : GoString) (h : Handle) (hd : dsnOf i = some dsn)
    (hc : mapGet p.accountDB dsn = some h) :
    p.OpenInstance sqlOpen i =
      if p.closing then ((none, some (bytes "Pool being closed")), p)
      else ((some h, none), p) := by
  unfold Common.OpenInstance
  simp only [hd, hc]

/-- C6: in every sequence of operations on one registry, each atomic, two
`OpenInstance` calls that are given descriptors with module `Mysql` and the same
connection username, connection password and host and that both succeed return
the identical handle; the later call leaves the registry, and so the cache,
unchanged and does not consult `sql.Open`: its outcome is the same whatever
`sql.Open` would return.  Since a successful `sql.Open` is what adds a cache
entry, the open succeeds at most once per connection-target string. -/
theorem openInstance_dedup (p q : Common) (s1 s2 : SqlOpen) (i1 i2 : DbrInstance)
    (mid : List Op) (h1 h2 : Handle)
    (hm1 : i1.module = bytes "Mysql") (hm2 : i2.module = bytes "Mysql")
    (hu : i1.connectionUsername = i2.connectionUsername)
    (hpw : i1.connectionPassword = i2.connectionPassword) (hh : i1.host = i2.host)
    (hr1 : (p.OpenInstance s1 i1).1 = (some h1, none))
    (hmid : runOps mid (p.OpenInstance s1 i1).2 = some q)
    (hr2 : (q.OpenInstance s2 i2).1 = (some h2, none)) :
    h1 = h2 ∧ (q.OpenInstance s2 i2).2 = q ∧
      ∀ s, q.OpenInstance s i2 = q.OpenInstance s2 i2 := by
  obtain ⟨dsn, hd1, hd2⟩ := dsnOf_congr i1 i2 hm1 hm2 hu hpw hh
  have c1 := OpenInstance_success s1 p i1 dsn h1 hd1 hr1
  have c2 := (runOps_pool mid _ q hmid).2 dsn h1 c1
  have e2 := fun s => OpenInstance_cached s q i2 dsn h1 hd2 c2
  rw [e2 s2] at hr2 ⊢
  by_cases hcl : q.closing = true
  · simp [hcl] at hr2
  · simp only [hcl, if_false] at hr2 ⊢
    injection hr2 with h3 h4
    injection h3 with h3
    refine ⟨h3, rfl, fun s => ?_⟩
    rw [e2 s]
    simp [hcl]

/-- C6, on a registry with an empty cache: the two descriptors of account 7, the
second call with an `sql.Open` that would return another handle. -/
theorem openInstance_dedup_witness :
    (1 : Handle) = 1 ∧ (exOpened.OpenInstance exOpen2 exOps7).2 = exOpened ∧
      ∀ s, exOpened.OpenInstance s exOps7 = exOpened.OpenInstance exOpen2 exOps7 :=
  openInstance_dedup (Common.init exConf) exOpened exOpen exOpen2 exConfig7 exOps7
    [] 1 1 (by decide) (by decide) (by decide) (by decide) (by decide) (by decide)
    (by decide) (by decide)

/-- C9: once `Close` has been called on a registry, the closing flag is set
after every later sequence of operations, and an `OpenInstance` call then made
for a descriptor that has a connection target (module `Mysql`), whether or not
the target is in the cache, fails with the error `Pool being closed`, returns
no handle and leaves the registry, and so the cache, unchanged. -/
theorem close_is_permanent (p q : Common) (dbClose : Handle → Option Error)
    (order : List (GoString × Handle) → List (GoString × Handle)) (ops : List Op) (sqlOpen : SqlOpen) (i : DbrInstance) (dsn : GoString)
    (hrun : runOps ops (p.Close dbClose order).2 = some q) (hdsn : dsnOf i = some dsn) :
    q.closing = true ∧
      q.OpenInstance sqlOpen i = ((none, some (bytes "Pool being closed")), q) := by
  have hc : q.closing = true := (runOps_pool ops _ q hrun).1 rfl
  refine ⟨hc, ?_⟩
  unfold Common.OpenInstance
  simp only [hdsn, hc, if_true]

/-- C9, on the registry of the end-to-end scenario: closed, reconciled again,
then asked to open the `config` database of account 7. -/
theorem close_is_permanent_witness :
    exClosed.closing = true ∧
      exClosed.OpenInstance exOpen exConfig7
        = ((none, some (bytes "Pool being closed")), exClosed) :=
  close_is_permanent exRegistry7 exClosed exClose List.reverse
    [Op.readAccounts (delivers exInstances7) (delivers exDirectory7)] exOpen
    exConfig7 exTarget7 (by decide) (by decide)



/-! ## The lazily opened handle and the row iterator -/


theorem Account_DB_done (sqlOpen : SqlOpen) (a : Account) (pool : Common)
    (h : a.dbLock = true) : a.DB sqlOpen pool = (.done (a.db, a.dbErr), a, pool) := by
  simp [Account.DB, h]

theorem Account_DB_first (sqlOpen : SqlOpen) (a : Account) (pool : Common)
    (c : DbrInstance) (hc : a.config = some c) :
    (a.DB sqlOpen pool).2.1.dbLock = true ∧
      (a.DB sqlOpen pool).1
        = .done ((a.DB sqlOpen pool).2.1.db, (a.DB sqlOpen pool).2.1.dbErr) := by
  unfold Account.DB
  by_cases hl : a.dbLock = true
  · simp [hl]
  · simp [hl, hc]

theorem dbCalls_done (rest : List (SqlOpen × Common)) :
    ∀ (a : Account), a.dbLock = true →
      dbCalls a rest = rest.map (fun sp => (Exec.done (a.db, a.dbErr), sp.2)) := by
  induction rest with
  | nil => intro a _; rfl
  | cons sp rest ih =>
    intro a h
    obtain ⟨s, pool⟩ := sp
    simp only [dbCalls, Account_DB_done s a pool h, List.map_cons]
    rw [ih a h]

/-- C7: for every account with a `config` descriptor attached and every sequence
of `DB()` calls on it, each made while the registry is in an arbitrary state
(any cache, closing or not) and with an arbitrary outcome of `sql.Open`.  The
first call returns (it does not panic).  When the account's `sync.Once` is
still unused, the first call invokes the registry's `OpenInstance` on the
`config` descriptor: it returns exactly the handle/error pair of that
invocation, stores the pair in the account and leaves the registry as
`OpenInstance` left it; when the `Once` was used up before, the first call
returns the stored pair and leaves the registry as it found it.  Every later
call returns exactly the handle/error pair of the first call and leaves the
registry as it found it, whatever that state and whatever `sql.Open` would
return; so no later call invokes `OpenInstance`.  This includes a first open
that failed. -/
theorem account_DB_once (a : Account) (c : DbrInstance) (hc : a.config = some c)
    (s1 : SqlOpen) (p1 : Common) (rest : List (SqlOpen × Common)) :
    (a.dbLock = false →
      (a.DB s1 p1).1 = .done (p1.OpenInstance s1 c).1 ∧
      (a.DB s1 p1).2.2 = (p1.OpenInstance s1 c).2 ∧
      (a.DB s1 p1).2.1 = { a with db := (p1.OpenInstance s1 c).1.1,
                                  dbErr := (p1.OpenInstance s1 c).1.2, dbLock := true }) ∧
    (a.dbLock = true →
      (a.DB s1 p1).1 = .done (a.db, a.dbErr) ∧ (a.DB s1 p1).2.2 = p1 ∧
      (a.DB s1 p1).2.1 = a) ∧
    (∃ r, (a.DB s1 p1).1 = .done r) ∧
      dbCalls a ((s1, p1) :: rest)
        = ((a.DB s1 p1).1, (a.DB s1 p1).2.2)
          :: rest.map (fun sp => ((a.DB s1 p1).1, sp.2)) := by
  have h := Account_DB_first s1 a p1 c hc
  refine ⟨?_, ?_, ⟨_, h.2⟩, ?_⟩
  · intro hl
    simp [Account.DB, hl, hc]
  · intro hl
    simp [Account.DB, hl]
  · simp only [dbCalls]
    rw [dbCalls_done rest _ h.1, ← h.2]

/-- C7, on an account whose `Once` is unused.  When its first open fails, the
call returns what `OpenInstance` returned, and a later call, made when the open
would succeed, still returns the error; when its first open succeeds, the call
returns the new handle and leaves it in the cache. -/
theorem account_DB_once_witness :
    ((exAccountNew.DB exOpenFails (Common.init exConf)).1
        = .done ((Common.init exConf).OpenInstance exOpenFails exConfig7).1 ∧
      (exAccountNew.DB exOpenFails (Common.init exConf)).2.2
        = ((Common.init exConf).OpenInstance exOpenFails exConfig7).2) ∧
    dbCalls exAccountNew [(exOpenFails, Common.init exConf), (exOpen, exOpened)]
      = [(.done (none, some (bytes "invalid DSN")), Common.init exConf),
         (.done (none, some (bytes "invalid DSN")), exOpened)] ∧
    (exAccountNew.DB exOpen (Common.init exConf)).1 = .done (some 1, none) ∧
    (exAccountNew.DB exOpen (Common.init exConf)).2.2 = exOpened :=
  ⟨⟨((account_DB_once exAccountNew exConfig7 (by decide) exOpenFails (Common.init exConf)
        [(exOpen, exOpened)]).1 (by decide)).1,
     ((account_DB_once exAccountNew exConfig7 (by decide) exOpenFails (Common.init exConf)
        [(exOpen, exOpened)]).1 (by decide)).2.1⟩,
    (account_DB_once exAccountNew exConfig7 (by decide) exOpenFails (Common.init exConf)
      [(exOpen, exOpened)]).2.2.2,
    by decide, by decide⟩

/-- The error `Close` returns depends on the order of the map iteration: with
two handles whose close fails, it is the error of whichever is visited last. -/
theorem Close_error_order :
    (exTwoHandles.Close exCloseFails (fun m => m)).1 = some [2] ∧
    (exTwoHandles.Close exCloseFails List.reverse).1 = some [1] ∧
    (exTwoHandles.Close exCloseFails (fun m => m)).2
      = (exTwoHandles.Close exCloseFails List.reverse).2 := by
  decide

/-- The error `Close` returns is the failure of a visited handle, and it is
nil exactly when no visited handle fails to close; the registry afterwards does
not depend on the order. -/
theorem Close_spec (dbClose : Handle → Option Error)
    (order : List (GoString × Handle) → List (GoString × Handle)) (p : Common) :
    (p.Close dbClose order).2 = { p with closing := true } ∧
    ((p.Close dbClose order).1 = none ↔ ∀ e ∈ order p.accountDB, dbClose e.2 = none) ∧
    (∀ err, (p.Close dbClose order).1 = some err →
      ∃ e ∈ order p.accountDB, dbClose e.2 = some err) := by
  have key : ∀ (l : List (GoString × Handle)) (init : Option Error),
      (l.foldl (fun someErr e => match dbClose e.2 with
          | some err => some err
          | none => someErr) init = none ↔
        init = none ∧ ∀ e ∈ l, dbClose e.2 = none) ∧
      (∀ err, l.foldl (fun someErr e => match dbClose e.2 with
          | some err => some err
          | none => someErr) init = some err →
        init = some err ∨ ∃ e ∈ l, dbClose e.2 = some err) := by
    intro l
    induction l with
    | nil => intro init; simp
    | cons x l ih =>
      intro init
      simp only [List.foldl_cons, List.mem_cons, forall_eq_or_imp, exists_eq_or_imp]
      cases hx : dbClose x.2 with
      | none =>
        simp only [true_and]
        refine ⟨(ih init).1, fun err h => ?_⟩
        rcases (ih init).2 err h with h | h
        · exact Or.inl h
        · exact Or.inr (Or.inr h)
      | some e0 =>
        simp only [reduceCtorEq, false_and, and_false, iff_false]
        refine ⟨fun h => ?_, fun err h => ?_⟩
        · exact absurd ((ih (some e0)).1.mp h).1 (by simp)
        · rcases (ih (some e0)).2 err h with h | h
          · exact Or.inr (Or.inl h)
          · exact Or.inr (Or.inr h)
  refine ⟨rfl, ?_, ?_⟩
  · have := (key (order p.accountDB) none).1
    simpa [Common.Close] using this
  · intro err h
    have := (key (order p.accountDB) none).2 err (by simpa [Common.Close] using h)
    rcases this with h | h
    · exact absurd h (by simp)
    · exact h

/-- C10: for every `Rows` wrapper whose inner cursor is nil, `Scan` returns
false, stores nothing into the destinations and leaves the wrapper unchanged, so
that `Err()` afterwards returns the error the wrapper was built with.  Such
wrappers are built by `WrapRows(nil, err)` for any `err`, and by `QueryContext`
when the handle error is set or the query failed. -/
theorem rows_scan_nil_cursor {α : Type} (r : Rows α) (h : r.rows = none) :
    r.Scan = (false, none, r) ∧ r.Scan.2.2.Err = r.Err ∧
    (∀ err : Option Error, (WrapRows (none : Option (SqlRows α)) err).rows = none ∧
      (WrapRows (none : Option (SqlRows α)) err).Err = err) ∧
    (∀ (e : Error) (q : Except Error (SqlRows α)),
      (QueryContext (some e) q).rows = none ∧ (QueryContext (some e) q).Err = some e) ∧
    (∀ e : Error, (QueryContext none (.error e : Except Error (SqlRows α))).rows = none ∧
      (QueryContext none (.error e : Except Error (SqlRows α))).Err = some e) := by
  have hs : r.Scan = (false, none, r) := by
    unfold Rows.Scan
    rw [h]
  refine ⟨hs, by rw [hs], fun err => ⟨rfl, rfl⟩, fun e q => ⟨rfl, rfl⟩, fun e => ⟨rfl, rfl⟩⟩

/-- C10, the test of the repository: `WrapRows(nil, nil).Scan()` is false. -/
theorem rows_scan_nil_cursor_witness :
    (WrapRows (none : Option (SqlRows Unit)) none).Scan.1 = false :=
  congrArg Prod.fst (rows_scan_nil_cursor (WrapRows (none : Option (SqlRows Unit)) none) rfl).1



/-! ## Placeholder substitution -/


theorem replaceFrom_skip (old new : GoString) (s : GoString) :
    ∀ n, replaceFrom old new n s = replaceFrom old new 0 (s.drop n) := by
  induction s with
  | nil => intro n; cases n <;> simp [replaceFrom]
  | cons c s ih =>
    intro n
    cases n with
    | zero => rfl
    | succ n => simp only [replaceFrom, List.drop_succ_cons]; exact ih n

theorem substituteBoth_skip (cfg ops : GoString) (s : GoString) :
    ∀ n, substituteBoth cfg ops n s = substituteBoth cfg ops 0 (s.drop n) := by
  induction s with
  | nil => intro n; cases n <;> simp [substituteBoth]
  | cons c s ih =>
    intro n
    cases n with
    | zero => rfl
    | succ n => simp only [substituteBoth, List.drop_succ_cons]; exact ih n

theorem opsToken_eq : opsToken = [123, 111, 112, 115, 125] := by decide

theorem configToken_eq : configToken = [123, 99, 111, 110, 102, 105, 103, 125] := by decide

/-- Text without `{` is copied by the `{ops}` replacement. -/
theorem replace_ops_append (ops : GoString) (l : GoString) (h : ∀ b ∈ l, b ≠ 123)
    (x : GoString) :
    replaceFrom opsToken ops 0 (l ++ x) = l ++ replaceFrom opsToken ops 0 x := by
  induction l with
  | nil => rfl
  | cons b l ih =>
    have hb : b ≠ 123 := h b (List.mem_cons_self _ _)
    rw [opsToken_eq] at ih ⊢
    simp only [List.cons_append, replaceFrom, List.isPrefixOf, beq_iff_eq, Ne.symm hb,
      Bool.false_and, Bool.false_eq_true, if_false, List.cons.injEq, true_and]
    simp [Ne.symm hb]
    exact ih (fun c hc => h c (List.mem_cons_of_mem _ hc))




theorem cfg_clash (cfg z y u : GoString)
    (hu : u = [] ∨ u = [115] ∨ u = [112, 115] ∨ u = [111, 112, 115])
    (hne : cfg ≠ []) (hb : ∀ b ∈ cfg, b ≠ 123 ∧ b ≠ 125)
    (hi : ¬ cfg <:+: [111, 112, 115]) (h : cfg ++ z = u ++ 125 :: y) : False := by
  rcases cfg with _ | ⟨g1, _ | ⟨g2, _ | ⟨g3, _ | ⟨g4, c4⟩⟩⟩⟩
  · exact hne rfl
  all_goals
    rcases hu with rfl | rfl | rfl | rfl
    all_goals
      simp only [List.cons_append, List.nil_append, List.cons.injEq] at h
      first
        | (have hg := (hb g1 (by simp)).2; omega)
        | (have hg := (hb g2 (by simp)).2; omega)
        | (have hg := (hb g3 (by simp)).2; omega)
        | (have hg := (hb g4 (by simp)).2; omega)
        | (obtain ⟨rfl, -⟩ := h; exact hi (by decide))
        | (obtain ⟨rfl, rfl, -⟩ := h; exact hi (by decide))
        | (obtain ⟨rfl, rfl, rfl, -⟩ := h; exact hi (by decide))




theorem replace_config_cons (cfg : GoString) (d : Nat) (t : GoString) :
    replaceFrom configToken cfg 0 (d :: t) =
      if configToken.isPrefixOf (d :: t) then cfg ++ replaceFrom configToken cfg 0 (t.drop 7)
      else d :: replaceFrom configToken cfg 0 t := by
  simp only [replaceFrom]
  rw [replaceFrom_skip configToken cfg t (configToken.length - 1)]
  rfl

theorem replace_ops_cons (ops : GoString) (d : Nat) (t : GoString) :
    replaceFrom opsToken ops 0 (d :: t) =
      if opsToken.isPrefixOf (d :: t) then ops ++ replaceFrom opsToken ops 0 (t.drop 4)
      else d :: replaceFrom opsToken ops 0 t := by
  simp only [replaceFrom]
  rw [replaceFrom_skip opsToken ops t (opsToken.length - 1)]
  rfl

theorem substituteBoth_cons (cfg ops : GoString) (d : Nat) (t : GoString) :
    substituteBoth cfg ops 0 (d :: t) =
      if configToken.isPrefixOf (d :: t) then cfg ++ substituteBoth cfg ops 0 (t.drop 7)
      else if opsToken.isPrefixOf (d :: t) then ops ++ substituteBoth cfg ops 0 (t.drop 4)
      else d :: substituteBoth cfg ops 0 t := by
  simp only [substituteBoth]
  rw [substituteBoth_skip cfg ops t 7, substituteBoth_skip cfg ops t 4]

theorem keeps_step (cfg : GoString) (x : Nat) (w : GoString)
    (hclash : ∀ z y, cfg ++ z = (x :: w) ++ y → False)
    (hprev : ∀ t y, replaceFrom configToken cfg 0 t = w ++ y → ∃ y', t = w ++ y') :
    ∀ t y, replaceFrom configToken cfg 0 t = (x :: w) ++ y → ∃ y', t = (x :: w) ++ y' := by
  intro t y h
  cases t with
  | nil => simp [replaceFrom] at h
  | cons d t =>
    rw [replace_config_cons] at h
    split at h
    · exact absurd h (fun h => hclash _ _ h)
    · simp only [List.cons_append, List.cons.injEq] at h
      obtain ⟨y', hy⟩ := hprev t y h.2
      exact ⟨y', by simp [h.1, hy]⟩

/-- When the substituted name is non-empty, has no brace and is not a
contiguous part of `ops`, the `{config}` replacement creates no `ops}`. -/
theorem config_replace_keeps (cfg : GoString) (hne : cfg ≠ [])
    (hb : ∀ b ∈ cfg, b ≠ 123 ∧ b ≠ 125) (hi : ¬ cfg <:+: [111, 112, 115]) :
    ∀ t y, replaceFrom configToken cfg 0 t = [111, 112, 115, 125] ++ y →
      ∃ y', t = [111, 112, 115, 125] ++ y' := by
  have l0 : ∀ t y, replaceFrom configToken cfg 0 t = [] ++ y → ∃ y', t = [] ++ y' :=
    fun t _ _ => ⟨t, rfl⟩
  have l1 := keeps_step cfg 125 []
    (fun z y h => cfg_clash cfg z y [] (Or.inl rfl) hne hb hi h) l0
  have l2 := keeps_step cfg 115 [125]
    (fun z y h => cfg_clash cfg z y [115] (Or.inr (Or.inl rfl)) hne hb hi h) l1
  have l3 := keeps_step cfg 112 [115, 125]
    (fun z y h => cfg_clash cfg z y [112, 115] (Or.inr (Or.inr (Or.inl rfl))) hne hb hi h) l2
  exact keeps_step cfg 111 [112, 115, 125]
    (fun z y h => cfg_clash cfg z y [111, 112, 115] (Or.inr (Or.inr (Or.inr rfl))) hne hb hi h)
    l3

theorem replace_twice_eq (cfg ops : GoString) (hne : cfg ≠ [])
    (hb : ∀ b ∈ cfg, b ≠ 123 ∧ b ≠ 125) (hi : ¬ cfg <:+: [111, 112, 115]) :
    ∀ (n : Nat) (q : GoString), q.length ≤ n →
      replaceFrom opsToken ops 0 (replaceFrom configToken cfg 0 q)
        = substituteBoth cfg ops 0 q := by
  intro n
  induction n with
  | zero =>
    intro q hq
    have : q = [] := List.length_eq_zero.mp (by omega)
    subst this
    rfl
  | succ n ih =>
    intro q hq
    cases q with
    | nil => rfl
    | cons c s =>
      rw [replace_config_cons, substituteBoth_cons]
      by_cases hC : configToken.isPrefixOf (c :: s) = true
      · simp only [hC, if_true]
        rw [replace_ops_append ops cfg (fun b hb' => (hb b hb').1)]
        rw [ih (s.drop 7) (by simp at hq ⊢; omega)]
      · simp only [hC, Bool.false_eq_true, if_false]
        by_cases hO : opsToken.isPrefixOf (c :: s) = true
        · simp only [hO, if_true]
          obtain ⟨rest, hrest⟩ := List.isPrefixOf_iff_prefix.mp hO
          rw [opsToken_eq] at hrest
          simp only [List.cons_append, List.nil_append, List.cons.injEq] at hrest
          obtain ⟨rfl, rfl⟩ := hrest
          have e1 : replaceFrom configToken cfg 0 (111 :: 112 :: 115 :: 125 :: rest)
              = 111 :: 112 :: 115 :: 125 :: replaceFrom configToken cfg 0 rest := by
            simp [replaceFrom, configToken_eq, List.isPrefixOf]
          rw [e1, replace_ops_cons]
          have e2 : opsToken.isPrefixOf
              (123 :: 111 :: 112 :: 115 :: 125 :: replaceFrom configToken cfg 0 rest) = true := by
            simp [opsToken_eq, List.isPrefixOf]
          simp only [e2, if_true, List.drop_succ_cons, List.drop_zero]
          rw [ih rest (by simp at hq ⊢; omega)]
        · simp only [hO, Bool.false_eq_true, if_false]
          rw [replace_ops_cons]
          have e3 : opsToken.isPrefixOf (c :: replaceFrom configToken cfg 0 s) = false := by
            rw [Bool.eq_false_iff]
            intro hp
            obtain ⟨y, hy⟩ := List.isPrefixOf_iff_prefix.mp hp
            rw [opsToken_eq] at hy
            simp only [List.cons_append, List.nil_append, List.cons.injEq] at hy
            obtain ⟨y', hy'⟩ := config_replace_keeps cfg hne hb hi s y hy.2.symm
            apply hO
            rw [List.isPrefixOf_iff_prefix, opsToken_eq, hy', ← hy.1]
            exact ⟨y', rfl⟩
          simp only [e3, Bool.false_eq_true, if_false]
          rw [ih s (by simp at hq ⊢; omega)]




/-- C8 (as stated, refuted): with a `config` database named `{ops}` and an `ops`
database named `X`, `QueryPrep("{config}")` is `X`, although the caller's text
holds no `{ops}` and the substitution the claim describes yields `{ops}`: the
substituted database name was itself rewritten.  Likewise with a `config`
database named `ops`, `QueryPrep("{{config}}")` is `X` instead of `{ops}`. -/
theorem queryPrep_rewrites_substituted_name :
    exAccountBraces.QueryPrep (bytes "\x7bconfig\x7d") = .done (bytes "X") ∧
    substituteBoth (bytes "\x7bops\x7d") (bytes "X") 0 (bytes "\x7bconfig\x7d")
      = bytes "\x7bops\x7d" ∧
    exAccountBraces.QueryPrep (bytes "\x7bconfig\x7d")
      ≠ .done (substituteBoth (bytes "\x7bops\x7d") (bytes "X") 0 (bytes "\x7bconfig\x7d")) ∧
    exAccountOps.QueryPrep (bytes "\x7b\x7bconfig\x7d\x7d") = .done (bytes "X") ∧
    substituteBoth (bytes "ops") (bytes "X") 0 (bytes "\x7b\x7bconfig\x7d\x7d")
      = bytes "\x7bops\x7d" := by
  decide

/-- C8 (amended): for every account with both descriptors attached whose
`config` database name is non-empty, contains neither `{` (123) nor `}` (125)
and is not a contiguous part of the text `ops`, and for every caller-supplied
query string, `QueryPrep(query)` returns the query with each occurrence of
`{config}` in the caller's text replaced by the `config` database name and each
occurrence of `{ops}` in the caller's text replaced by the `ops` database name,
all other text, the substituted names included, left unchanged. -/
theorem queryPrep_substitutes (a : Account) (config ops : DbrInstance)
    (hc : a.config = some config) (ho : a.ops = some ops) (hne : config.dbname ≠ [])
    (hb : ∀ b ∈ config.dbname, b ≠ 123 ∧ b ≠ 125)
    (hi : ¬ config.dbname <:+: bytes "ops") (query : GoString) :
    a.QueryPrep query = .done (substituteBoth config.dbname ops.dbname 0 query) := by
  have hi2 : ¬ config.dbname <:+: [111, 112, 115] := hi
  simp only [Account.QueryPrep, hc, ho, Replace]
  congr 1
  exact replace_twice_eq config.dbname ops.dbname hne hb hi2 query.length query (le_refl _)

/-- C8, on account 7 of the end-to-end scenario. -/
theorem queryPrep_substitutes_witness :
    exAccount7.QueryPrep (bytes "USE \x7bconfig\x7d; SELECT 1 FROM \x7bops\x7d.t")
      = .done (bytes "USE t7cfg; SELECT 1 FROM t7ops.t") ∧
    ∀ query, exAccount7.QueryPrep query
      = .done (substituteBoth (bytes "t7cfg") (bytes "t7ops") 0 query) :=
  ⟨by decide,
    queryPrep_substitutes exAccount7 exConfig7 exOps7 (by decide) (by decide) (by decide)
      (by decide) (by decide)⟩



/-! ## The loop bound -/


theorem instanceBody_ne_fuel (s : Common × DbrInstance) (r : InstanceRow) :
    instanceBody s r ≠ .fuel := by
  by_cases h : r.tag = some []
  · rw [show s = (s.1, s.2) from rfl, instanceBody_panic s.1 s.2 r h]
    exact fun h => Exec.noConfusion h
  · obtain ⟨t, ht⟩ := instanceBody_total s.1 s.2 r h
    rw [show s = (s.1, s.2) from rfl, ht]
    exact fun h => Exec.noConfusion h

theorem foldExec_ne_fuel {α σ : Type} (body : σ → α → Exec σ)
    (hbody : ∀ s a, body s a ≠ .fuel) (rows : List α) :
    ∀ s, foldExec body rows s ≠ .fuel := by
  induction rows with
  | nil => intro s h; exact Exec.noConfusion h
  | cons a rest ih =>
    intro s
    simp only [foldExec]
    cases hb : body s a with
    | done s' => exact ih s'
    | panic => exact fun h => Exec.noConfusion h
    | fuel => exact absurd hb (hbody s a)

/-- The loop bound of the model is never exhausted: a pass over the cursors of
two successful queries returns or panics. -/
theorem ReadAccounts_ne_fuel (ips : List (Except Error InstanceRow)) (ie : Option Error)
    (cps : List (Except Error ClientRow)) (ce : Option Error) (p : Common) :
    p.ReadAccounts (.ok (SqlRows.fresh ips ie)) (.ok (SqlRows.fresh cps ce)) ≠ .fuel := by
  rw [ReadAccounts_fresh]
  cases h1 : foldExec instanceBody (okRows ips) (p, instanceVar p) with
  | panic => exact fun h => Exec.noConfusion h
  | fuel => exact absurd h1 (foldExec_ne_fuel _ instanceBody_ne_fuel _ _)
  | done s =>
    obtain ⟨p1, i1⟩ := s
    simp only
    split
    · exact fun h => Exec.noConfusion h
    · obtain ⟨p2, h2⟩ := foldExec_client_total (okRows cps) p1
      simp only [h2]
      split <;> exact fun h => Exec.noConfusion h


end Ropdb
